import Mathlib

/-!
Shallow embedding of the LOGIC_SIM circuit engine (`src/engine/CircuitEngine.ts`,
`src/engine/types.ts`, `src/engine/utils.ts`) and of the library import routine
(`src/storage/libraryStore.ts`), together with theorems settling the frozen claims
about the specification.

Modelling conventions:
* JavaScript `Map<string, LogicNode>` is modelled as an insertion-ordered
  association list `List (Nat × LogicNode)` (`alistGet` finds the first binding,
  `alistSet` replaces in place or appends, `alistDelete` removes).
* `generateId` (random string ids in the source) is modelled as a fresh-id
  counter `nextId` threaded through the engine state.
* JavaScript array writes `a[i] = v` extend the array when `i` is out of range;
  holes read back as `undefined`, which boolean contexts treat as `false`.
  `jsSetPad` reproduces this with an explicit padding value.
* The host facility `new Function(body)` that turns a generated code body into a
  callable cannot be given semantics inside Lean; it is modelled as an oracle
  `compile : String → Option CompiledFn` passed to `tick`.  `none` models a
  compilation failure (the `catch` branch in the source).
* UI callbacks (`triggerUpdate`, `onSelectionChange`) are no-ops and omitted.
-/

/-- Node type tags, from `types.ts`. -/
inductive NodeType where
  | AND | OR | NOT | XOR | NAND | SWITCH | LIGHT | CLOCK | BUFFER | GROUP | IC
  deriving DecidableEq, Repr

/-- 2D vector with integer coordinates (positions only feed ordering and
bounding-box arithmetic in the claims). -/
structure Vec2 where
  x : Int
  y : Int
  deriving DecidableEq, Repr

/-- Viewport state, from `types.ts`. -/
structure Viewport where
  x : Int
  y : Int
  zoom : Int
  deriving DecidableEq, Repr

/-- Wire record, from `types.ts`. -/
structure Wire where
  id : Nat
  sourceNodeId : Nat
  sourcePinIndex : Nat
  targetNodeId : Nat
  targetPinIndex : Nat
  state : Bool
  deriving DecidableEq, Repr

/-- Dynamically-typed JavaScript values appearing in IC internal state vectors
and in the values exchanged with a compiled IC function. -/
inductive JsVal where
  | undefVal : JsVal
  | bool (b : Bool) : JsVal
  | num (n : Int) : JsVal
  | arr (vs : List JsVal) : JsVal
  deriving Repr

mutual

/-- Structural equality on `JsVal` (JSON-style deep equality). -/
def jsValEqb : JsVal → JsVal → Bool
  | .undefVal, .undefVal => true
  | .bool a, .bool b => a == b
  | .num a, .num b => a == b
  | .arr a, .arr b => jsValListEqb a b
  | _, _ => false

/-- Pointwise `jsValEqb` on lists. -/
def jsValListEqb : List JsVal → List JsVal → Bool
  | [], [] => true
  | a :: as, b :: bs => jsValEqb a b && jsValListEqb as bs
  | _, _ => false

end

/-- Circuit node, from `types.ts` (`LogicNode`).  Field order follows the
TypeScript interface; all optional fields are `Option`s.  `internals` nests the
stored subgraph of a packed IC, which makes this a nested inductive type. -/
inductive LogicNode where
  | mk (id : Nat) (ty : NodeType) (position : Vec2)
       (inputs : List Bool) (outputs : List Bool)
       (label : Option String) (color : Option String) (groupId : Option Nat)
       (width : Option Int) (height : Option Int)
       (inputCount : Option Nat) (outputCount : Option Nat)
       (truthTable : Option (List (List Bool × List Int)))
       (ioMap : Option (List String × List String))
       (internalState : Option (List JsVal))
       (inputMapping : Option (List Nat)) (outputMapping : Option (List Nat))
       (compiledFunction : Option String) (equations : Option (List String))
       (internals : Option (List LogicNode × List Wire)) : LogicNode
  deriving Repr

def LogicNode.id : LogicNode → Nat
  | .mk i _ _ _ _ _ _ _ _ _ _ _ _ _ _ _ _ _ _ _ => i

def LogicNode.ty : LogicNode → NodeType
  | .mk _ t _ _ _ _ _ _ _ _ _ _ _ _ _ _ _ _ _ _ => t

def LogicNode.position : LogicNode → Vec2
  | .mk _ _ p _ _ _ _ _ _ _ _ _ _ _ _ _ _ _ _ _ => p

def LogicNode.inputs : LogicNode → List Bool
  | .mk _ _ _ i _ _ _ _ _ _ _ _ _ _ _ _ _ _ _ _ => i

def LogicNode.outputs : LogicNode → List Bool
  | .mk _ _ _ _ o _ _ _ _ _ _ _ _ _ _ _ _ _ _ _ => o

def LogicNode.label : LogicNode → Option String
  | .mk _ _ _ _ _ l _ _ _ _ _ _ _ _ _ _ _ _ _ _ => l

def LogicNode.color : LogicNode → Option String
  | .mk _ _ _ _ _ _ c _ _ _ _ _ _ _ _ _ _ _ _ _ => c

def LogicNode.groupId : LogicNode → Option Nat
  | .mk _ _ _ _ _ _ _ g _ _ _ _ _ _ _ _ _ _ _ _ => g

def LogicNode.width : LogicNode → Option Int
  | .mk _ _ _ _ _ _ _ _ w _ _ _ _ _ _ _ _ _ _ _ => w

def LogicNode.height : LogicNode → Option Int
  | .mk _ _ _ _ _ _ _ _ _ h _ _ _ _ _ _ _ _ _ _ => h

def LogicNode.inputCount : LogicNode → Option Nat
  | .mk _ _ _ _ _ _ _ _ _ _ ic _ _ _ _ _ _ _ _ _ => ic

def LogicNode.outputCount : LogicNode → Option Nat
  | .mk _ _ _ _ _ _ _ _ _ _ _ oc _ _ _ _ _ _ _ _ => oc

def LogicNode.truthTable : LogicNode → Option (List (List Bool × List Int))
  | .mk _ _ _ _ _ _ _ _ _ _ _ _ tt _ _ _ _ _ _ _ => tt

def LogicNode.ioMap : LogicNode → Option (List String × List String)
  | .mk _ _ _ _ _ _ _ _ _ _ _ _ _ io _ _ _ _ _ _ => io

def LogicNode.internalState : LogicNode → Option (List JsVal)
  | .mk _ _ _ _ _ _ _ _ _ _ _ _ _ _ st _ _ _ _ _ => st

def LogicNode.inputMapping : LogicNode → Option (List Nat)
  | .mk _ _ _ _ _ _ _ _ _ _ _ _ _ _ _ im _ _ _ _ => im

def LogicNode.outputMapping : LogicNode → Option (List Nat)
  | .mk _ _ _ _ _ _ _ _ _ _ _ _ _ _ _ _ om _ _ _ => om

def LogicNode.compiledFunction : LogicNode → Option String
  | .mk _ _ _ _ _ _ _ _ _ _ _ _ _ _ _ _ _ cf _ _ => cf

def LogicNode.equations : LogicNode → Option (List String)
  | .mk _ _ _ _ _ _ _ _ _ _ _ _ _ _ _ _ _ _ eqs _ => eqs

def LogicNode.internals : LogicNode → Option (List LogicNode × List Wire)
  | .mk _ _ _ _ _ _ _ _ _ _ _ _ _ _ _ _ _ _ _ n => n

def LogicNode.withId (v : Nat) : LogicNode → LogicNode
  | .mk _ t p i o l c g w h ic oc tt io st im om cf eqs n =>
    .mk v t p i o l c g w h ic oc tt io st im om cf eqs n

def LogicNode.withPosition (v : Vec2) : LogicNode → LogicNode
  | .mk d t _ i o l c g w h ic oc tt io st im om cf eqs n =>
    .mk d t v i o l c g w h ic oc tt io st im om cf eqs n

def LogicNode.withInputs (v : List Bool) : LogicNode → LogicNode
  | .mk d t p _ o l c g w h ic oc tt io st im om cf eqs n =>
    .mk d t p v o l c g w h ic oc tt io st im om cf eqs n

def LogicNode.withOutputs (v : List Bool) : LogicNode → LogicNode
  | .mk d t p i _ l c g w h ic oc tt io st im om cf eqs n =>
    .mk d t p i v l c g w h ic oc tt io st im om cf eqs n

def LogicNode.withGroupId (v : Option Nat) : LogicNode → LogicNode
  | .mk d t p i o l c _ w h ic oc tt io st im om cf eqs n =>
    .mk d t p i o l c v w h ic oc tt io st im om cf eqs n

def LogicNode.withInternalState (v : Option (List JsVal)) : LogicNode → LogicNode
  | .mk d t p i o l c g w h ic oc tt io _ im om cf eqs n =>
    .mk d t p i o l c g w h ic oc tt io v im om cf eqs n

def LogicNode.withInputMapping (v : Option (List Nat)) : LogicNode → LogicNode
  | .mk d t p i o l c g w h ic oc tt io st _ om cf eqs n =>
    .mk d t p i o l c g w h ic oc tt io st v om cf eqs n

def LogicNode.withOutputMapping (v : Option (List Nat)) : LogicNode → LogicNode
  | .mk d t p i o l c g w h ic oc tt io st im _ cf eqs n =>
    .mk d t p i o l c g w h ic oc tt io st im v cf eqs n

mutual

/-- Structural (JSON-style) equality on nodes, used to model the
`JSON.stringify`-based duplicate-snapshot comparison in `saveState`. -/
def nodeEqb : LogicNode → LogicNode → Bool
  | .mk i1 t1 p1 in1 o1 l1 c1 g1 w1 h1 ic1 oc1 tt1 io1 st1 im1 om1 cf1 eq1 nt1,
    .mk i2 t2 p2 in2 o2 l2 c2 g2 w2 h2 ic2 oc2 tt2 io2 st2 im2 om2 cf2 eq2 nt2 =>
    i1 == i2 && t1 == t2 && p1 == p2 && in1 == in2 && o1 == o2 &&
    l1 == l2 && c1 == c2 && g1 == g2 && w1 == w2 && h1 == h2 &&
    ic1 == ic2 && oc1 == oc2 && tt1 == tt2 && io1 == io2 &&
    (match st1, st2 with
     | none, none => true
     | some a, some b => jsValListEqb a b
     | _, _ => false) &&
    im1 == im2 && om1 == om2 && cf1 == cf2 && eq1 == eq2 &&
    (match nt1, nt2 with
     | none, none => true
     | some (ns1, ws1), some (ns2, ws2) => nodeListEqb ns1 ns2 && ws1 == ws2
     | _, _ => false)

/-- Pointwise `nodeEqb` on lists. -/
def nodeListEqb : List LogicNode → List LogicNode → Bool
  | [], [] => true
  | a :: as, b :: bs => nodeEqb a b && nodeListEqb as bs
  | _, _ => false

end

/-- First binding of a key in an insertion-ordered association list
(JavaScript `Map.get`). -/
def alistGet {α : Type} : List (Nat × α) → Nat → Option α
  | [], _ => none
  | (k, v) :: t, key => if k = key then some v else alistGet t key

/-- JavaScript `Map.set`: replace the first binding in place, or append. -/
def alistSet {α : Type} : List (Nat × α) → Nat → α → List (Nat × α)
  | [], key, v => [(key, v)]
  | (k, w) :: t, key, v =>
    if k = key then (k, v) :: t else (k, w) :: alistSet t key v

/-- JavaScript `Map.delete`. -/
def alistDelete {α : Type} : List (Nat × α) → Nat → List (Nat × α)
  | [], _ => []
  | (k, w) :: t, key => if k = key then t else (k, w) :: alistDelete t key

/-- JavaScript array write `a[i] = v`: in range it overwrites, out of range it
extends the array, padding the gap with `pad` (holes read back as `undefined`,
which is the padding value chosen at each call site). -/
def jsSetPad {α : Type} (pad : α) : List α → Nat → α → List α
  | [], 0, v => [v]
  | [], Nat.succ i, v => pad :: jsSetPad pad [] i v
  | _ :: t, 0, v => v :: t
  | h :: t, Nat.succ i, v => h :: jsSetPad pad t i v

/-- JavaScript truthiness of an optional string (`undefined` and the empty
string are falsy). -/
def jsStrTruthy : Option String → Bool
  | none => false
  | some s => s ≠ ""

/-- JavaScript `str || dflt` for optional strings. -/
def jsOrStr (s : Option String) (dflt : String) : String :=
  match s with
  | none => dflt
  | some v => if v = "" then dflt else v

/-- JavaScript `n || dflt` for optional numbers (0 is falsy). -/
def jsOrInt (n : Option Int) (dflt : Int) : Int :=
  match n with
  | none => dflt
  | some v => if v = 0 then dflt else v

/-- JavaScript `Array.prototype.indexOf`: index of the first occurrence, or -1. -/
def jsIndexOf : List Nat → Nat → Int
  | [], _ => -1
  | h :: t, v =>
    if h = v then 0
    else
      let r := jsIndexOf t v
      if r = -1 then -1 else r + 1

/-- Stable insertion of an element into a list sorted by a boolean
less-or-equal test: the element lands after all existing elements that are ≤.
Together with `stableSortBy` this models JavaScript stable `Array.sort`. -/
def stableInsertBy {α : Type} (le : α → α → Bool) (x : α) : List α → List α
  | [] => [x]
  | h :: t => if le h x then h :: stableInsertBy le x t else x :: h :: t

/-- Stable sort (models `Array.sort` with a numeric comparator). -/
def stableSortBy {α : Type} (le : α → α → Bool) (l : List α) : List α :=
  l.foldl (fun acc x => stableInsertBy le x acc) []

/-- Result of invoking a compiled IC function (`fn(mappedInputs, state)`):
either a bare output array (legacy pure composites), an object with `outputs`
and `state` fields, or any other value (ignored by the engine). -/
inductive ICResult where
  | retArr (vs : List JsVal) : ICResult
  | retObj (outputs : Option (List JsVal)) (state : List JsVal) : ICResult
  | retOther : ICResult

/-- A callable produced by the host `new Function` facility. -/
def CompiledFn : Type := List JsVal → List JsVal → ICResult

/-- Oracle for the host `new Function(body)` facility; `none` models a
compilation failure (the `catch` branch at the single compile call site). -/
def Compile : Type := String → Option CompiledFn

/-- Full-graph snapshot stored on the history stack (the JSON content of
`serialize()`: nodes, wires, viewport). -/
structure Snapshot where
  nodes : List LogicNode
  wires : List Wire
  viewport : Viewport

/-- Structural equality of snapshots, modelling equality of their JSON
serializations in `saveState`. -/
def snapEqb (a b : Snapshot) : Bool :=
  nodeListEqb a.nodes b.nodes && a.wires == b.wires && a.viewport == b.viewport

/-- Engine state: the mutable fields of `CircuitEngine` relevant to the claims
(pointer-interaction scratch state and UI callbacks are omitted; `nextId`
models `generateId`). -/
structure EngineState where
  nodes : List (Nat × LogicNode)
  wires : List Wire
  viewport : Viewport
  selectedNodeIds : List Nat
  selectedWireIds : List Nat
  isRunning : Bool
  tickRate : Int
  lastTick : Int
  tickCount : Nat
  fnCache : List (Nat × CompiledFn)
  historyStack : List Snapshot
  redoStack : List Snapshot
  isRestoringHistory : Bool
  nextId : Nat

/-- Cap on the history stack (`maxHistory = 50`). -/
def maxHistory : Nat := 50

/-- The `serialize()` method: current nodes (as a value list), wires, viewport. -/
def serialize (s : EngineState) : Snapshot :=
  ⟨s.nodes.map (·.2), s.wires, s.viewport⟩

/-- The `deserialize(data)` method: clears nodes, the compiled-function cache
and both selections, then rebuilds the node map keyed by each node's id. -/
def deserialize (s : EngineState) (snap : Snapshot) : EngineState :=
  { s with
    nodes := snap.nodes.foldl (fun m n => alistSet m n.id n) []
    wires := snap.wires
    viewport := snap.viewport
    fnCache := []
    selectedNodeIds := []
    selectedWireIds := [] }

/-- The `saveState()` method: re-entrancy guard, duplicate-top suppression,
push, cap eviction (`shift`), redo-stack clear. -/
def saveState (s : EngineState) : EngineState :=
  if s.isRestoringHistory then s
  else
    let snap := serialize s
    let dup :=
      match s.historyStack.getLast? with
      | some top => snapEqb top snap
      | none => false
    if dup then s
    else
      let h := s.historyStack ++ [snap]
      let h := if maxHistory < h.length then h.tail else h
      { s with historyStack := h, redoStack := [] }

/-- The `undo()` method: pop the top onto the redo stack and restore the new
top.  (The `isRestoringHistory` flag is set and immediately cleared around
`deserialize` in the source; `deserialize` never reads it, so the model keeps
it unchanged.) -/
def undo (s : EngineState) : EngineState :=
  if s.historyStack.length ≤ 1 then s
  else
    let s1 :=
      match s.historyStack.getLast? with
      | some current =>
        { s with historyStack := s.historyStack.dropLast
                 redoStack := s.redoStack ++ [current] }
      | none => { s with historyStack := s.historyStack.dropLast }
    match s1.historyStack.getLast? with
    | some prev => deserialize s1 prev
    | none => s1

/-- The `redo()` method: pop the redo stack, push onto history, restore. -/
def redo (s : EngineState) : EngineState :=
  match s.redoStack.getLast? with
  | none => s
  | some next =>
    let s1 := { s with redoStack := s.redoStack.dropLast
                       historyStack := s.historyStack ++ [next] }
    deserialize s1 next

/-- The `getInputCount` pin/IO resolver. -/
def getInputCount (ty : NodeType) (node : Option LogicNode) : Nat :=
  match ty, node with
  | .IC, some n =>
    match n.inputCount with
    | some c => c
    | none => 2
  | _, _ =>
    match ty with
    | .NOT | .BUFFER | .LIGHT => 1
    | .SWITCH | .CLOCK | .GROUP => 0
    | _ => 2

/-- The `getOutputCount` pin/IO resolver. -/
def getOutputCount (ty : NodeType) (node : Option LogicNode) : Nat :=
  match ty, node with
  | .IC, some n =>
    match n.outputCount with
    | some c => c
    | none => 1
  | _, _ => if ty = .LIGHT ∨ ty = .GROUP then 0 else 1

/-- Default gate dimensions `DEF_GATE_W`/`DEF_GATE_H`.  The repository's
`constants.ts` is not present under `src/`; the values are taken from the
in-repo single-file predecessor of the engine, which defines 60 × 40. -/
def DEF_GATE_W : Int := 60

def DEF_GATE_H : Int := 40

/-- The `getNodeDimensions` helper (JS `node.width || 100` treats 0 as absent). -/
def getNodeDimensions (n : LogicNode) : Int × Int :=
  match n.ty with
  | .BUFFER | .NOT => (40, 30)
  | .GROUP | .IC => (jsOrInt n.width 100, jsOrInt n.height 100)
  | _ => (DEF_GATE_W, DEF_GATE_H)

/-- Fresh-id supply modelling `generateId()`. -/
def generateId (s : EngineState) : Nat × EngineState :=
  (s.nextId, { s with nextId := s.nextId + 1 })

/-- The `addNode(type, pos)` operation (the optional library-template argument
is not modelled; no claim exercises it). -/
def addNode (s : EngineState) (ty : NodeType) (pos : Vec2) : Nat × EngineState :=
  let s := saveState s
  let (id, s) := generateId s
  let inCount := getInputCount ty none
  let outCount := getOutputCount ty none
  let node : LogicNode :=
    .mk id ty pos (List.replicate inCount false) (List.replicate outCount false)
      none none none none none none none none none none none none none none none
  (id, { s with nodes := alistSet s.nodes id node })

/-- Clearing of a group back-reference when the referenced group is deleted
(`if (n.groupId === id) n.groupId = undefined`). -/
def groupClear (id : Nat) (n : LogicNode) : LogicNode :=
  if n.groupId = some id then n.withGroupId none else n

/-- One iteration of the `deleteSelected` loop: remove the node, drop all
wires touching it, clear group back-references, drop its compiled-function
cache entry. -/
def deleteNodeStep (st : EngineState) (id : Nat) : EngineState :=
  { st with
    nodes := (alistDelete st.nodes id).map (fun p => (p.1, groupClear id p.2))
    wires := st.wires.filter
      (fun w => w.sourceNodeId ≠ id ∧ w.targetNodeId ≠ id)
    fnCache := st.fnCache.filter (fun p => p.1 ≠ id) }

/-- The `deleteSelected()` operation: checkpoint, then for each selected node
remove it, drop all wires touching it, clear group back-references and its
compiled-function cache entry; then drop explicitly selected wires; finally
clear both selections. -/
def deleteSelected (s : EngineState) : EngineState :=
  if s.selectedNodeIds = [] ∧ s.selectedWireIds = [] then s
  else
    let s1 := saveState s
    let s2 := s.selectedNodeIds.foldl deleteNodeStep s1
    let s3 :=
      if s.selectedWireIds ≠ [] then
        { s2 with wires := s2.wires.filter (fun w => w.id ∉ s.selectedWireIds) }
      else s2
    { s3 with selectedNodeIds := [], selectedWireIds := [] }

/-- Association-list lookup for the truth table: the source keys the table by
the input bit-string; bit-strings correspond exactly to `List Bool` keys. -/
def ttLookup : List (List Bool × List Int) → List Bool → Option (List Int)
  | [], _ => none
  | (k, v) :: t, key => if k = key then some v else ttLookup t key

/-- JavaScript read `i[pin]` from a boolean array, as a `JsVal`
(out-of-range reads give `undefined`). -/
def jsReadBool (i : List Bool) (pin : Nat) : JsVal :=
  match i.get? pin with
  | some b => .bool b
  | none => .undefVal

/-- Build `mappedInputs` for an IC invocation: `new Array(inputCount)` filled
by `inputMapping.forEach((portIdx, pinIdx) => mapped[portIdx] = i[pinIdx])`,
or an index-wise copy of the raw inputs when no mapping is set. -/
def buildMappedInputs (mapping : Option (List Nat)) (i : List Bool) (nIn : Nat) :
    List JsVal :=
  let init := List.replicate nIn JsVal.undefVal
  match mapping with
  | some mp =>
    (mp.enum).foldl (fun acc p => jsSetPad JsVal.undefVal acc p.2 (jsReadBool i p.1)) init
  | none =>
    (List.range i.length).foldl
      (fun acc k => jsSetPad JsVal.undefVal acc k (jsReadBool i k)) init

/-- Build `mappedOutputs` after an IC invocation: `new Array(outputCount)`
filled by `outputMapping.forEach((portIdx, pinIdx) =>
mapped[pinIdx] = result.outputs[portIdx])`, or an index-wise copy. -/
def buildMappedOutputs (mapping : Option (List Nat)) (outs : List JsVal)
    (nOut : Nat) : List JsVal :=
  let init := List.replicate nOut JsVal.undefVal
  match mapping with
  | some mp =>
    (mp.enum).foldl
      (fun acc p => jsSetPad JsVal.undefVal acc p.1 (outs.getD p.2 JsVal.undefVal)) init
  | none =>
    (List.range outs.length).foldl
      (fun acc k => jsSetPad JsVal.undefVal acc k (outs.getD k JsVal.undefVal)) init

/-- The strict comparison `v === 1` applied to the members of an IC result. -/
def jsValIsOne : JsVal → Bool
  | .num n => n == 1
  | _ => false

/-- Application of an IC invocation result to the node: a bare array sets the
outputs through `v === 1`; an object with an `outputs` field permutes them
through the output mapping and persists the returned state; anything else
leaves the node unchanged. -/
def applyICResult (n : LogicNode) (r : ICResult) : LogicNode :=
  match r with
  | .retArr vs => n.withOutputs (vs.map jsValIsOne)
  | .retObj (some outs) st =>
    (n.withOutputs
        ((buildMappedOutputs n.outputMapping outs (n.outputCount.getD 0)).map
          jsValIsOne)).withInternalState (some st)
  | .retObj none _ => n
  | .retOther => n

/-- The IC dispatch arm of the evaluation phase: with a truthy generated body,
obtain (or lazily compile and cache) the callable and apply it through the pin
mappings; a compilation failure is caught and leaves the node unchanged.
Without a body, look the raw input bit-string up in the static truth table; an
unmatched key leaves the outputs unchanged. -/
def evalNodeIC (compile : Compile) (n : LogicNode)
    (cache : List (Nat × CompiledFn)) : LogicNode × List (Nat × CompiledFn) :=
  if jsStrTruthy n.compiledFunction then
    let body := n.compiledFunction.getD ""
    let (fnOpt, cache1) :=
      match alistGet cache n.id with
      | some f => (some f, cache)
      | none =>
        match compile body with
        | some f => (some f, alistSet cache n.id f)
        | none => (none, cache)
    match fnOpt with
    | none => (n, cache1)
    | some f =>
      let mappedInputs :=
        buildMappedInputs n.inputMapping n.inputs (n.inputCount.getD 0)
      (applyICResult n (f mappedInputs (n.internalState.getD [])), cache1)
  else
    match n.truthTable with
    | some tt =>
      match ttLookup tt n.inputs with
      | some bits => (n.withOutputs (bits.map (fun b => b == 1)), cache)
      | none => (n, cache)
    | none => (n, cache)

/-- Evaluation of one node during the evaluation phase of `tick`, threading the
compiled-function cache.  Gate types apply their fixed combinational rule;
`IC` follows the dispatch rule (compiled body, else truth table); all other
types are untouched. -/
def evalNode (compile : Compile) (n : LogicNode) (cache : List (Nat × CompiledFn)) :
    LogicNode × List (Nat × CompiledFn) :=
  let i := n.inputs
  let i0 := i.getD 0 false
  let i1 := i.getD 1 false
  match n.ty with
  | .AND => (n.withOutputs (jsSetPad false n.outputs 0 (i0 && i1)), cache)
  | .OR => (n.withOutputs (jsSetPad false n.outputs 0 (i0 || i1)), cache)
  | .NOT => (n.withOutputs (jsSetPad false n.outputs 0 (!i0)), cache)
  | .NAND => (n.withOutputs (jsSetPad false n.outputs 0 (!(i0 && i1))), cache)
  | .XOR => (n.withOutputs (jsSetPad false n.outputs 0 (i0 != i1)), cache)
  | .BUFFER => (n.withOutputs (jsSetPad false n.outputs 0 i0), cache)
  | .IC => evalNodeIC compile n cache
  | _ => (n, cache)

/-- The evaluation phase: evaluate every node in map order, threading the
compiled-function cache. -/
def evalNodes (compile : Compile) :
    List (Nat × LogicNode) → List (Nat × CompiledFn) →
    List (Nat × LogicNode) × List (Nat × CompiledFn)
  | [], cache => ([], cache)
  | (k, n) :: rest, cache =>
    let (n1, cache1) := evalNode compile n cache
    let (rest1, cache2) := evalNodes compile rest cache1
    ((k, n1) :: rest1, cache2)

/-- The propagation phase: for each wire in list order, if both endpoints
exist, copy the source output at the source pin into the wire's cached state
and the target input at the target pin; missing endpoints are skipped. -/
def propagateWires :
    List (Nat × LogicNode) → List Wire → List (Nat × LogicNode) × List Wire
  | nodes, [] => (nodes, [])
  | nodes, w :: rest =>
    match alistGet nodes w.sourceNodeId, alistGet nodes w.targetNodeId with
    | some src, some tgt =>
      let val := src.outputs.getD w.sourcePinIndex false
      let nodes1 := alistSet nodes w.targetNodeId
        (tgt.withInputs (jsSetPad false tgt.inputs w.targetPinIndex val))
      let (nodes2, rest1) := propagateWires nodes1 rest
      (nodes2, { w with state := val } :: rest1)
    | _, _ =>
      let (nodes2, rest1) := propagateWires nodes rest
      (nodes2, w :: rest1)

/-- The run gate at the top of `tick`: a non-forced call is ignored when the
simulator is paused or when fewer than `tickRate` milliseconds elapsed since
the last accepted tick. -/
def runGate (ts : Int) (s : EngineState) : Bool :=
  !((!s.isRunning) && ts != -1) && !(ts != -1 && ts - s.lastTick < s.tickRate)

/-- Per-node clock update: a CLOCK node's output 0 is set from the square wave
`Math.floor(tickCount / 5) % 2 === 0`; other nodes are untouched. -/
def clockFix (tc : Nat) (n : LogicNode) : LogicNode :=
  if n.ty = .CLOCK then
    n.withOutputs (jsSetPad false n.outputs 0 (decide (tc / 5 % 2 = 0)))
  else n

/-- The clock-update phase over the node map. -/
def clockPhase (tc : Nat) (nodes : List (Nat × LogicNode)) :
    List (Nat × LogicNode) :=
  nodes.map (fun p => (p.1, clockFix tc p.2))

/-- Per-node input reset: every node except SWITCH and CLOCK has all input
slots cleared to false (`inputs.fill(false)` keeps the length). -/
def resetFix (n : LogicNode) : LogicNode :=
  if n.ty ≠ .SWITCH ∧ n.ty ≠ .CLOCK then
    n.withInputs (List.replicate n.inputs.length false)
  else n

/-- The input-reset phase over the node map. -/
def resetPhase (nodes : List (Nat × LogicNode)) : List (Nat × LogicNode) :=
  nodes.map (fun p => (p.1, resetFix p.2))

/-- The `tick(timestamp)` method: run gate, then clock update, input reset,
wire propagation and node evaluation, in that order. -/
def tick (compile : Compile) (ts : Int) (s : EngineState) : EngineState :=
  if !runGate ts s then s
  else
    let s := { s with lastTick := ts, tickCount := s.tickCount + 1 }
    let nodes := clockPhase s.tickCount s.nodes
    let nodes := resetPhase nodes
    let (nodes, wires) := propagateWires nodes s.wires
    let (nodes, cache) := evalNodes compile nodes s.fnCache
    { s with nodes := nodes, wires := wires, fnCache := cache }

/-- The `toggleSwitch(nodeId)` operation: flip a SWITCH's output 0 and, when
the simulator is running, force one single-shot tick. -/
def toggleSwitch (compile : Compile) (s : EngineState) (nodeId : Nat) :
    EngineState :=
  match alistGet s.nodes nodeId with
  | none => s
  | some n =>
    if n.ty = .SWITCH then
      let n1 := n.withOutputs (jsSetPad false n.outputs 0 (!(n.outputs.getD 0 false)))
      let s1 := { s with nodes := alistSet s.nodes nodeId n1 }
      if s1.isRunning then tick compile (-1) s1 else s1
    else s

/-- Direction tag for `updateIOMapping` (the `'input' | 'output'` parameter). -/
inductive PinDir where
  | input | output
  deriving DecidableEq, Repr

/-- The core swap of `updateIOMapping` on one mapping array: reassigning pin
`pinIndex` to port `portIndex` hands the pin's previous port to whichever pin
held `portIndex` (if any, and if distinct). -/
def remapStep (m : List Nat) (pinIndex portIndex : Nat) : List Nat :=
  let oldPort := m.getD pinIndex 0
  let otherPinIndex := jsIndexOf m portIndex
  let m1 :=
    if otherPinIndex ≠ -1 ∧ otherPinIndex ≠ (pinIndex : Int) then
      m.set otherPinIndex.toNat oldPort
    else m
  m1.set pinIndex portIndex

/-- The `updateIOMapping(nodeId, type, pinIndex, portIndex)` operation:
guarded to IC nodes, checkpointing, lazily initialising the mapping to the
identity, then applying the swap. -/
def updateIOMapping (s : EngineState) (nodeId : Nat) (dir : PinDir)
    (pinIndex portIndex : Nat) : EngineState :=
  match alistGet s.nodes nodeId with
  | none => s
  | some n =>
    if n.ty ≠ .IC then s
    else
      let s1 := saveState s
      let n1 :=
        match dir with
        | .input =>
          let m := n.inputMapping.getD (List.range (n.inputCount.getD 0))
          n.withInputMapping (some (remapStep m pinIndex portIndex))
        | .output =>
          let m := n.outputMapping.getD (List.range (n.outputCount.getD 0))
          n.withOutputMapping (some (remapStep m pinIndex portIndex))
      { s1 with nodes := alistSet s1.nodes nodeId n1 }

/-- Variable name `v_<id>` used by the pack code generator (`-` is replaced by
`_` in the source; model ids are numerals, so no replacement is needed). -/
def varName (id : Nat) : String := "v_" ++ toString id

/-- Nested IC wrapper name `func_<id>`. -/
def funcName (id : Nat) : String := "func_" ++ toString id

/-- The `Array.prototype.indexOf` call `inputs.indexOf(src)` of the code
generator, with object identity modelled by node id. -/
def jsIndexOfNode (l : List LogicNode) (id : Nat) : Int :=
  jsIndexOf (l.map (·.id)) id

/-- The `getInVal` helper of the code generator: render the expression feeding
one input pin of an internal node, tracing the internal wire back to a SWITCH
ordinal, a nested IC output accumulator, or a state variable. -/
def getInVal (inputs internals stateNodes : List LogicNode)
    (myInWires : List Wire) (idx : Nat) : String :=
  match myInWires.find? (fun w => w.targetPinIndex == idx) with
  | some w =>
    match internals.find? (fun x => x.id == w.sourceNodeId) with
    | some src =>
      if src.ty = .SWITCH then
        "(inputs[" ++ toString (jsIndexOfNode inputs src.id) ++ "] ? 1 : 0)"
      else if src.ty = .IC then
        varName src.id ++ "_out[" ++ toString w.sourcePinIndex ++ "]"
      else if stateNodes.any (fun x => x.id == w.sourceNodeId) then
        varName w.sourceNodeId
      else "0"
    | none =>
      if stateNodes.any (fun x => x.id == w.sourceNodeId) then
        varName w.sourceNodeId
      else "0"
  | none => "0"

/-- Combinational expression table of the code generator (`packGroupToIC`). -/
def gateExpr (ty : NodeType) (a b : String) : String :=
  match ty with
  | .AND => "((" ++ a ++ " + " ++ b ++ ") == 2 ? 1 : 0)"
  | .OR => "((" ++ a ++ " + " ++ b ++ ") > 0 ? 1 : 0)"
  | .NOT => "(" ++ a ++ " == 0 ? 1 : 0)"
  | .NAND => "((" ++ a ++ " + " ++ b ++ ") < 2 ? 1 : 0)"
  | .XOR => "(" ++ a ++ " != " ++ b ++ " ? 1 : 0)"
  | .BUFFER => a
  | _ => "0"

/-- The generated code body emitted by `packGroupToIC`: nested IC wrappers,
state unpacking, the bounded 10-iteration relaxation loop, state repacking and
the final return. -/
def packCompiledBody (inputs outputs internals stateNodes : List LogicNode)
    (internalWires : List Wire) : String :=
  let nestedICs := internals.filter (fun n => n.ty == .IC)
  let icLines := nestedICs.foldl (fun acc ic =>
    if jsStrTruthy ic.compiledFunction then
      acc ++ ["const " ++ funcName ic.id ++ " = (inputs, state) => \x7b",
              ic.compiledFunction.getD "", "\x7d;"]
    else
      acc ++ ["const " ++ funcName ic.id ++
        " = (inputs, state) => (\x7b outputs: new Array(" ++
        toString (ic.outputCount.getD 0) ++
        ").fill(0), state: state || [] \x7d);"]) []
  let unpackLines := (stateNodes.enum).foldl (fun acc p =>
    let i := p.1
    let n := p.2
    let v := varName n.id
    if n.ty = .IC then
      acc ++ ["let " ++ v ++ "_state = state[" ++ toString i ++
                "] !== undefined ? state[" ++ toString i ++ "] : [];",
              "let " ++ v ++ "_out = new Array(" ++
                toString (n.outputCount.getD 0) ++ ").fill(0);"]
    else
      acc ++ ["let " ++ v ++ " = state[" ++ toString i ++
        "] !== undefined ? state[" ++ toString i ++ "] : 0;"]) []
  let loopLines := stateNodes.foldl (fun acc n =>
    let v := varName n.id
    let myInWires := stableSortBy
      (fun a b => a.targetPinIndex ≤ b.targetPinIndex)
      (internalWires.filter (fun w => w.targetNodeId == n.id))
    let inVal := getInVal inputs internals stateNodes myInWires
    if n.ty = .IC then
      let inputExprs := (List.range (n.inputCount.getD 0)).map inVal
      acc ++ ["  const res_" ++ v ++ " = " ++ funcName n.id ++ "([" ++
                String.intercalate ", " inputExprs ++ "], " ++ v ++ "_state);",
              "  " ++ v ++ "_state = res_" ++ v ++ ".state;",
              "  " ++ v ++ "_out = res_" ++ v ++ ".outputs;"]
    else
      acc ++ ["  " ++ v ++ " = " ++ gateExpr n.ty (inVal 0) (inVal 1) ++ ";"]) []
  let newStateLine := "const newState = [" ++
    String.intercalate ", "
      (stateNodes.map (fun n =>
        if n.ty = .IC then varName n.id ++ "_state" else varName n.id)) ++ "];"
  let outList := outputs.map (fun o =>
    match internalWires.find? (fun w => w.targetNodeId == o.id) with
    | some w =>
      match internals.find? (fun x => x.id == w.sourceNodeId) with
      | some src =>
        if src.ty = .SWITCH then
          "(inputs[" ++ toString (jsIndexOfNode inputs src.id) ++ "] ? 1 : 0)"
        else if src.ty = .IC then
          varName src.id ++ "_out[" ++ toString w.sourcePinIndex ++ "]"
        else if stateNodes.any (fun x => x.id == w.sourceNodeId) then
          varName w.sourceNodeId
        else "0"
      | none =>
        if stateNodes.any (fun x => x.id == w.sourceNodeId) then
          varName w.sourceNodeId
        else "0"
    | none => "0")
  let retLine := "return \x7b outputs: [" ++ String.intercalate ", " outList ++
    "], state: newState \x7d;"
  String.intercalate "\n"
    (icLines ++ ["// Unpack state"] ++ unpackLines ++
     ["for(let iter=0; iter<10; iter++) \x7b"] ++ loopLines ++ ["\x7d"] ++
     [newStateLine, retLine])

/-- The `packGroupToIC()` operation: locate the selected GROUP, partition its
members (SWITCH members become inputs, LIGHT members outputs, both ordered by
ascending y), generate the compiled body, snapshot the internal subgraph, and
replace group plus members with a single IC node that reuses the group's id. -/
def packGroupToIC (s : EngineState) : EngineState :=
  match s.selectedNodeIds.find?
      (fun id => (alistGet s.nodes id).any (fun n => n.ty == .GROUP)) with
  | none => s
  | some groupId =>
    match alistGet s.nodes groupId with
    | none => s
    | some groupNode =>
      let internals := (s.nodes.map (·.2)).filter
        (fun n => n.groupId = some groupId)
      let inputs := stableSortBy (fun a b => a.position.y ≤ b.position.y)
        (internals.filter (fun n => n.ty == .SWITCH))
      let outputs := stableSortBy (fun a b => a.position.y ≤ b.position.y)
        (internals.filter (fun n => n.ty == .LIGHT))
      if inputs.length = 0 ∧ outputs.length = 0 then s
      else
        let s := saveState s
        let stateNodes := internals.filter (fun n => n.ty ≠ .SWITCH)
        let internalWires := s.wires.filter (fun w =>
          internals.any (fun n => n.id == w.sourceNodeId) ∧
          internals.any (fun n => n.id == w.targetNodeId))
        let compiledFnBody :=
          packCompiledBody inputs outputs internals stateNodes internalWires
        let storedNodes := internals.map (fun n =>
          ((n.withPosition ⟨n.position.x - groupNode.position.x,
                            n.position.y - groupNode.position.y⟩).withGroupId
            none))
        let storedWires := s.wires.filter (fun w =>
          internals.any (fun n => n.id == w.sourceNodeId) ∧
          internals.any (fun n => n.id == w.targetNodeId))
        let icNode : LogicNode :=
          .mk groupId .IC groupNode.position
            (List.replicate inputs.length false)
            (List.replicate outputs.length false)
            (some (jsOrStr groupNode.label "Chip")) none none
            (some 100)
            (some ((max inputs.length outputs.length : Nat) * 20 + 40))
            (some inputs.length) (some outputs.length)
            none
            (some ((inputs.enum).map (fun p =>
                     jsOrStr p.2.label ("In " ++ toString p.1)),
                   (outputs.enum).map (fun p =>
                     jsOrStr p.2.label ("Out " ++ toString p.1))))
            (some (stateNodes.map (fun n =>
              if n.ty = .IC then JsVal.arr (n.internalState.getD [])
              else JsVal.num 0)))
            (some (List.range inputs.length))
            (some (List.range outputs.length))
            (some compiledFnBody)
            (some [])
            (some (storedNodes, storedWires))
        let nodes := internals.foldl (fun m n => alistDelete m n.id) s.nodes
        let nodes := alistDelete nodes groupId
        let wires := s.wires.filter (fun w =>
          ¬ internals.any (fun n => n.id == w.sourceNodeId) ∧
          ¬ internals.any (fun n => n.id == w.targetNodeId))
        let nodes := alistSet nodes groupId icNode
        { s with nodes := nodes, wires := wires,
                 selectedNodeIds := [groupId] }

/-- Bounding box of a node list via `getNodeDimensions` (`Infinity` starting
values modelled by large sentinels; purely geometric, unused by any claim). -/
def bboxOf (ns : List LogicNode) : Int × Int × Int × Int :=
  ns.foldl (fun acc n =>
    let (minX, minY, maxX, maxY) := acc
    let (w, h) := getNodeDimensions n
    (min minX (n.position.x - w / 2), min minY (n.position.y - h / 2),
     max maxX (n.position.x + w / 2), max maxY (n.position.y + h / 2)))
    (1000000000, 1000000000, -1000000000, -1000000000)

/-- The `unpackICToGroup()` operation: locate the selected IC with a stored
internal snapshot, create a fresh GROUP sized to the snapshot's bounding box,
re-instantiate the stored nodes and wires under fresh ids offset by the IC's
position, delete the IC, and select the new group with its members. -/
def unpackICToGroup (s : EngineState) : EngineState :=
  match s.selectedNodeIds.find?
      (fun id => (alistGet s.nodes id).any (fun n => n.ty == .IC)) with
  | none => s
  | some icId =>
    match alistGet s.nodes icId with
    | none => s
    | some icNode =>
      match icNode.internals with
      | none => s
      | some (storedNodes, storedWires) =>
        let s := saveState s
        let (groupId, s) := generateId s
        let (minX, minY, maxX, maxY) := bboxOf storedNodes
        let groupW := (maxX - minX) + 80
        let groupH := (maxY - minY) + 80
        let groupNode : LogicNode :=
          .mk groupId .GROUP icNode.position [] []
            (some (jsOrStr icNode.label "Unpacked")) none none
            (some groupW) (some groupH)
            none none none none none none none none none none
        let nodes := alistSet s.nodes groupId groupNode
        let step := fun (acc : List (Nat × LogicNode) × List (Nat × Nat) × EngineState)
            (n : LogicNode) =>
          let (nodes, idMap, st) := acc
          let (newId, st) := generateId st
          let n1 := ((n.withId newId).withGroupId (some groupId)).withPosition
            ⟨icNode.position.x + n.position.x, icNode.position.y + n.position.y⟩
          (alistSet nodes newId n1, idMap ++ [(n.id, newId)], st)
        let (nodes, idMap, s) := storedNodes.foldl step (nodes, [], s)
        let wireStep := fun (acc : List Wire × EngineState) (w : Wire) =>
          let (ws, st) := acc
          match alistGet idMap w.sourceNodeId, alistGet idMap w.targetNodeId with
          | some a, some b =>
            let (wid, st) := generateId st
            (ws ++ [{ w with id := wid, sourceNodeId := a, targetNodeId := b,
                             state := false }], st)
          | _, _ => (ws, st)
        let (wires, s) := storedWires.foldl wireStep (s.wires, s)
        let nodes := alistDelete nodes icId
        let fnCache := s.fnCache.filter (fun p => p.1 ≠ icId)
        let sel := groupId ::
          (nodes.filter (fun p => p.2.groupId = some groupId)).map (·.1)
        { s with nodes := nodes, wires := wires, fnCache := fnCache,
                 selectedNodeIds := sel }

/-- Library record shape, from `libraryStore.ts` (`LibraryItem`). -/
structure LibraryItem where
  id : Nat
  name : String
  inputCount : Nat
  outputCount : Nat
  width : Int
  height : Int
  truthTable : Option (List (List Bool × List Int))
  ioMap : Option (List String × List String)
  compiledFunction : Option String
  equations : Option (List String)
  internals : Option (List LogicNode × List Wire)
  createdAt : Int

/-- IndexedDB `put` (upsert by primary key `id`) on the library store. -/
def dbPut (store : List LibraryItem) (item : LibraryItem) : List LibraryItem :=
  if store.any (fun it => it.id == item.id) then
    store.map (fun it => if it.id == item.id then item else it)
  else store ++ [item]

/-- The import loop of `importLibraryFromJSON`: each parsed item receives a
fresh id and timestamp and is written with an individual (non-transactional)
`db.put`; a rejected put raises, leaving all earlier writes in place.  The
`putOk` oracle models which `db.put` calls succeed; `Except.error` carries the
store as left behind by the raised exception. -/
def importLoop (putOk : Nat → Bool) (now : Int) (idBase : Nat) :
    List LibraryItem → Nat → List LibraryItem →
    Except (List LibraryItem) (List LibraryItem × Nat)
  | [], _, store => .ok (store, 0)
  | item :: rest, k, store =>
    let item1 := { item with id := idBase + k, createdAt := now }
    if putOk k then
      match importLoop putOk now idBase rest (k + 1) (dbPut store item1) with
      | .ok (store1, c) => .ok (store1, c + 1)
      | .error store1 => .error store1
    else .error store

/-- The `importLibraryFromJSON` routine.  `parsed` is the outcome of
`JSON.parse` (`none` models a parse exception, which propagates before any
write).  Returns the final store and the imported count, or the store left
behind by a failed import. -/
def importLibraryFromJSON (parsed : Option (List LibraryItem))
    (putOk : Nat → Bool) (now : Int) (idBase : Nat)
    (store : List LibraryItem) :
    Except (List LibraryItem) (List LibraryItem × Nat) :=
  match parsed with
  | none => .error store
  | some items => importLoop putOk now idBase items 0 store

/-- A compile oracle under which every compilation fails; used for concrete
runs that contain no IC nodes (or whose IC evaluation is not exercised). -/
def compileNone : Compile := fun _ => none

/-- Blank engine state prior to the constructor's demo circuit: the field
initialisers of `CircuitEngine`. -/
def emptyEngine : EngineState where
  nodes := []
  wires := []
  viewport := ⟨0, 0, 1⟩
  selectedNodeIds := []
  selectedWireIds := []
  isRunning := false
  tickRate := 100
  lastTick := 0
  tickCount := 0
  fnCache := []
  historyStack := []
  redoStack := []
  isRestoringHistory := false
  nextId := 1

/-- The `CircuitEngine` constructor: the four-node demo circuit followed by an
explicit `saveState()`. -/
def initialEngine : EngineState :=
  let s := (addNode emptyEngine .SWITCH ⟨100, 100⟩).2
  let s := (addNode s .SWITCH ⟨100, 200⟩).2
  let s := (addNode s .AND ⟨300, 150⟩).2
  let s := (addNode s .LIGHT ⟨500, 150⟩).2
  saveState s

/-- Shorthand for a plain node with no optional fields set. -/
def mkSimpleNode (id : Nat) (ty : NodeType) (pos : Vec2)
    (inputs outputs : List Bool) (groupId : Option Nat) : LogicNode :=
  .mk id ty pos inputs outputs none none groupId
    none none none none none none none none none none none none

/-- Fresh engine containing a single CLOCK node (claim C5), built by the
engine's own `addNode`. -/
def clockEngine : EngineState :=
  (addNode emptyEngine .CLOCK ⟨100, 100⟩).2

/-- Iterated forced ticks from `clockEngine`. -/
def clockTicks : Nat → EngineState
  | 0 => clockEngine
  | k + 1 => tick compileNone (-1) (clockTicks k)

/-- Output pin 0 of the CLOCK node of `clockEngine` after some ticks. -/
def clockOut (s : EngineState) : Option Bool :=
  (alistGet s.nodes 1).map (fun n => n.outputs.getD 0 false)

/-- Modelled from the spec: the fixed per-type combinational rule table of
§4.3 step 4 (AND = both inputs true; OR = either; NOT = negation of input 0;
NAND = negation of AND; XOR = inputs differ; BUFFER = passthrough of input 0),
stated independently of the engine to compare against `evalNode`. -/
def specGateRule (ty : NodeType) (i : List Bool) : Bool :=
  match ty with
  | .AND => i.getD 0 false && i.getD 1 false
  | .OR => i.getD 0 false || i.getD 1 false
  | .NOT => !(i.getD 0 false)
  | .NAND => !(i.getD 0 false && i.getD 1 false)
  | .XOR => i.getD 0 false != i.getD 1 false
  | .BUFFER => i.getD 0 false
  | _ => false

/-- Boolean wire-closure check: every wire's endpoints are present in the node
map (the §3 invariant that dangling wires are pruned eagerly). -/
def wiresClosedB (s : EngineState) : Bool :=
  s.wires.all (fun w =>
    (alistGet s.nodes w.sourceNodeId).isSome &&
    (alistGet s.nodes w.targetNodeId).isSome)

/-- Invariant carried by a pin-to-port mapping field: unset, or a permutation
of the ports `0..count-1`. -/
def mappingOk (o : Option (List Nat)) (count : Nat) : Prop :=
  o = none ∨ ∃ m, o = some m ∧ m.Perm (List.range count)

/-- Number of nodes of one type in the graph. -/
def countTy (s : EngineState) (ty : NodeType) : Nat :=
  (s.nodes.filter (fun p => p.2.ty == ty)).length

/-- Witness fixture for C1: one AND gate alone in the graph. -/
def c1State : EngineState :=
  { emptyEngine with
    nodes := [(1, mkSimpleNode 1 .AND ⟨0, 0⟩ [true, true] [false] none)] }

/-- The AND node of `c1State` as it stands after one forced tick (inputs were
reset to false, output recomputed by the rule). -/
def c1Node : LogicNode := mkSimpleNode 1 .AND ⟨0, 0⟩ [false, false] [false] none

/-- Counterexample fixture for C2: two wires feed the same input pin 0 of the
AND node 3; wire 4 comes from switch 1 (output high), wire 5 from switch 2
(output low) and is processed last. -/
def c2State : EngineState :=
  { emptyEngine with
    nodes := [(1, mkSimpleNode 1 .SWITCH ⟨0, 0⟩ [] [true] none),
              (2, mkSimpleNode 2 .SWITCH ⟨0, 100⟩ [] [false] none),
              (3, mkSimpleNode 3 .AND ⟨200, 50⟩ [false, false] [false] none)]
    wires := [⟨4, 1, 0, 3, 0, false⟩, ⟨5, 2, 0, 3, 0, false⟩]
    nextId := 10 }

/-- Pack/unpack fixture (C3): two switches feeding an AND feeding a light, all
members of group 10, group selected. -/
def c3Init : EngineState :=
  { emptyEngine with
    nodes := [(1, mkSimpleNode 1 .SWITCH ⟨100, 100⟩ [] [false] (some 10)),
              (2, mkSimpleNode 2 .SWITCH ⟨100, 200⟩ [] [false] (some 10)),
              (3, mkSimpleNode 3 .AND ⟨300, 150⟩ [false, false] [false] (some 10)),
              (4, mkSimpleNode 4 .LIGHT ⟨500, 150⟩ [false] [] (some 10)),
              (10, .mk 10 .GROUP ⟨300, 150⟩ [] [] (some "Group") none none
                     (some 460) (some 160) none none none none none none none
                     none none none)]
    wires := [⟨5, 1, 0, 3, 0, false⟩, ⟨6, 2, 0, 3, 1, false⟩,
              ⟨7, 3, 0, 4, 0, false⟩]
    selectedNodeIds := [10]
    nextId := 20 }

/-- The packed then unpacked graph of the C3 fixture (the unpacked switches
get ids 21 and 22, the AND id 23, the LIGHT id 24, the fresh group id 20). -/
def c3Final : EngineState := unpackICToGroup (packGroupToIC c3Init)

/-- The unpacked C3 graph with both fresh switches toggled on. -/
def c3Toggled : EngineState :=
  toggleSwitch compileNone (toggleSwitch compileNone c3Final 21) 22

/-- One forced tick after toggling (the claim asserts the light input is
already true here). -/
def c3T1 : EngineState := tick compileNone (-1) c3Toggled

/-- Two forced ticks after toggling. -/
def c3T2 : EngineState := tick compileNone (-1) c3T1

/-- Witness fixture for C4 part (a): an IC with a non-empty generated body and
no cache entry, in a state where compilation will fail. -/
def c4IC : LogicNode :=
  .mk 2 .IC ⟨200, 0⟩ [false] [true] none none none (some 100) (some 60)
    (some 1) (some 1) none none (some [JsVal.num 0]) none none
    (some "return null;") none none

/-- Witness fixture for C4 part (b): an IC carrying only a truth table, whose
current inputs match no key. -/
def c4TTIC : LogicNode :=
  .mk 3 .IC ⟨200, 0⟩ [false, false] [true] none none none (some 100) (some 60)
    (some 2) (some 1) (some [([true, true], [1])]) none none none none none
    none none

/-- Engine state around `c4IC`. -/
def c4State : EngineState :=
  { emptyEngine with nodes := [(2, c4IC)], nextId := 10 }

/-- Counterexample fixture for C6: an external switch 1 wired into IC 2, which
carries a stored internal snapshot (a single buffer) and is selected. -/
def c6IC : LogicNode :=
  .mk 2 .IC ⟨200, 0⟩ [false] [false] none none none (some 100) (some 60)
    (some 1) (some 1) none none none none none none none
    (some ([mkSimpleNode 100 .BUFFER ⟨0, 0⟩ [false] [false] none], []))

/-- State for the C6 counterexample. -/
def c6State : EngineState :=
  { emptyEngine with
    nodes := [(1, mkSimpleNode 1 .SWITCH ⟨0, 0⟩ [] [false] none), (2, c6IC)]
    wires := [⟨3, 1, 0, 2, 0, false⟩]
    selectedNodeIds := [2]
    nextId := 50 }

/-- The C6 fixture after unpacking the IC. -/
def c6After : EngineState := unpackICToGroup c6State

/-- Witness fixture for the C6 amended theorem: the demo circuit with a wire
from switch 1 into the AND 3, AND selected for deletion, and group 10 around
the members for packing. -/
def c6DelState : EngineState :=
  { c3Init with selectedNodeIds := [3] }

/-- Default snapshot (used only to give `Snapshot` an `Inhabited` instance for
positional access into concrete history stacks). -/
instance : Inhabited Snapshot := ⟨⟨[], [], ⟨0, 0, 1⟩⟩⟩

/-- C8 fixture: the constructor's demo circuit with the AND node selected. -/
def c8Start : EngineState := { initialEngine with selectedNodeIds := [3] }

/-- History prefix below the two top snapshots of `c8Start`. -/
def c8HS : List Snapshot := c8Start.historyStack.take 3

/-- Second-from-top snapshot of `c8Start` (the state before the fourth
`addNode`). -/
def c8P : Snapshot := c8Start.historyStack.getD 3 default

/-- Top snapshot of `c8Start` (equal to its current serialized state). -/
def c8C : Snapshot := c8Start.historyStack.getD 4 default

/-- The C8 fixture after deleting the selection. -/
def c8Deleted : EngineState := deleteSelected c8Start

/-- The C8 fixture after delete followed by undo. -/
def c8Undone : EngineState := undo c8Deleted

/-- The C8 fixture after delete, undo, redo. -/
def c8Redone : EngineState := redo c8Undone

/-- C9 fixture: a parsed two-item library document. -/
def c9ItemA : LibraryItem :=
  ⟨0, "chipA", 2, 1, 100, 100, none, none, none, none, none, 0⟩

/-- Second C9 item. -/
def c9ItemB : LibraryItem :=
  ⟨0, "chipB", 1, 1, 100, 100, none, none, none, none, none, 0⟩

/-- Explicit shape of the clock fixture after at least one forced tick: tick
counter `k`, last accepted timestamp -1, clock output `b`. -/
def mkClockState (k : Nat) (b : Bool) : EngineState :=
  { emptyEngine with
    nodes := [(1, mkSimpleNode 1 .CLOCK ⟨100, 100⟩ [] [b] none)]
    lastTick := -1
    tickCount := k
    historyStack := [serialize emptyEngine]
    nextId := 2 }

/-- Witness fixture for C7: a 2-input, 1-output IC with unset pin mappings. -/
def c7IC : LogicNode :=
  .mk 5 .IC ⟨0, 0⟩ [false, false] [false] none none none (some 100) (some 60)
    (some 2) (some 1) none none none none none (some "return null;") none none

/-- Engine state around `c7IC`. -/
def c7State : EngineState :=
  { emptyEngine with nodes := [(5, c7IC)], nextId := 9 }

/-- A remap call sequence for the C7 witness. -/
def c7Calls : List (PinDir × Nat × Nat) :=
  [(.input, 0, 1), (.input, 1, 1), (.output, 0, 0)]

@[simp] theorem withInputs_inputs (n : LogicNode) (v : List Bool) :
    (n.withInputs v).inputs = v := by cases n; rfl

@[simp] theorem withInputs_outputs (n : LogicNode) (v : List Bool) :
    (n.withInputs v).outputs = n.outputs := by cases n; rfl

@[simp] theorem withInputs_ty (n : LogicNode) (v : List Bool) :
    (n.withInputs v).ty = n.ty := by cases n; rfl

@[simp] theorem withInputs_id (n : LogicNode) (v : List Bool) :
    (n.withInputs v).id = n.id := by cases n; rfl

@[simp] theorem withInputs_internalState (n : LogicNode) (v : List Bool) :
    (n.withInputs v).internalState = n.internalState := by cases n; rfl

@[simp] theorem withInputs_compiledFunction (n : LogicNode) (v : List Bool) :
    (n.withInputs v).compiledFunction = n.compiledFunction := by cases n; rfl

@[simp] theorem withInputs_truthTable (n : LogicNode) (v : List Bool) :
    (n.withInputs v).truthTable = n.truthTable := by cases n; rfl

@[simp] theorem withInputs_inputCount (n : LogicNode) (v : List Bool) :
    (n.withInputs v).inputCount = n.inputCount := by cases n; rfl

@[simp] theorem withInputs_outputCount (n : LogicNode) (v : List Bool) :
    (n.withInputs v).outputCount = n.outputCount := by cases n; rfl

@[simp] theorem withInputs_inputMapping (n : LogicNode) (v : List Bool) :
    (n.withInputs v).inputMapping = n.inputMapping := by cases n; rfl

@[simp] theorem withInputs_outputMapping (n : LogicNode) (v : List Bool) :
    (n.withInputs v).outputMapping = n.outputMapping := by cases n; rfl

@[simp] theorem withInputs_withInputs (n : LogicNode) (a b : List Bool) :
    (n.withInputs a).withInputs b = n.withInputs b := by cases n; rfl

theorem withInputs_self (n : LogicNode) : n.withInputs n.inputs = n := by
  cases n <;> rfl

@[simp] theorem withOutputs_inputs (n : LogicNode) (v : List Bool) :
    (n.withOutputs v).inputs = n.inputs := by cases n; rfl

@[simp] theorem withOutputs_outputs (n : LogicNode) (v : List Bool) :
    (n.withOutputs v).outputs = v := by cases n; rfl

@[simp] theorem withOutputs_ty (n : LogicNode) (v : List Bool) :
    (n.withOutputs v).ty = n.ty := by cases n; rfl

@[simp] theorem withOutputs_id (n : LogicNode) (v : List Bool) :
    (n.withOutputs v).id = n.id := by cases n; rfl

@[simp] theorem withInternalState_inputs (n : LogicNode) (v : Option (List JsVal)) :
    (n.withInternalState v).inputs = n.inputs := by cases n; rfl

@[simp] theorem withInternalState_ty (n : LogicNode) (v : Option (List JsVal)) :
    (n.withInternalState v).ty = n.ty := by cases n; rfl

@[simp] theorem withInternalState_id (n : LogicNode) (v : Option (List JsVal)) :
    (n.withInternalState v).id = n.id := by cases n; rfl

@[simp] theorem withInputMapping_ty (n : LogicNode) (v : Option (List Nat)) :
    (n.withInputMapping v).ty = n.ty := by cases n; rfl

@[simp] theorem withInputMapping_id (n : LogicNode) (v : Option (List Nat)) :
    (n.withInputMapping v).id = n.id := by cases n; rfl

@[simp] theorem withInputMapping_inputCount (n : LogicNode) (v : Option (List Nat)) :
    (n.withInputMapping v).inputCount = n.inputCount := by cases n; rfl

@[simp] theorem withInputMapping_outputCount (n : LogicNode) (v : Option (List Nat)) :
    (n.withInputMapping v).outputCount = n.outputCount := by cases n; rfl

@[simp] theorem withInputMapping_inputMapping (n : LogicNode) (v : Option (List Nat)) :
    (n.withInputMapping v).inputMapping = v := by cases n; rfl

@[simp] theorem withInputMapping_outputMapping (n : LogicNode) (v : Option (List Nat)) :
    (n.withInputMapping v).outputMapping = n.outputMapping := by cases n; rfl

@[simp] theorem withOutputMapping_ty (n : LogicNode) (v : Option (List Nat)) :
    (n.withOutputMapping v).ty = n.ty := by cases n; rfl

@[simp] theorem withOutputMapping_id (n : LogicNode) (v : Option (List Nat)) :
    (n.withOutputMapping v).id = n.id := by cases n; rfl

@[simp] theorem withOutputMapping_inputCount (n : LogicNode) (v : Option (List Nat)) :
    (n.withOutputMapping v).inputCount = n.inputCount := by cases n; rfl

@[simp] theorem withOutputMapping_outputCount (n : LogicNode) (v : Option (List Nat)) :
    (n.withOutputMapping v).outputCount = n.outputCount := by cases n; rfl

@[simp] theorem withOutputMapping_outputMapping (n : LogicNode) (v : Option (List Nat)) :
    (n.withOutputMapping v).outputMapping = v := by cases n; rfl

@[simp] theorem withOutputMapping_inputMapping (n : LogicNode) (v : Option (List Nat)) :
    (n.withOutputMapping v).inputMapping = n.inputMapping := by cases n; rfl

@[simp] theorem alistGet_nil {α : Type} (k : Nat) :
    alistGet ([] : List (Nat × α)) k = none := rfl

theorem alistGet_set_self {α : Type} :
    ∀ (m : List (Nat × α)) (k : Nat) (v : α),
      alistGet (alistSet m k v) k = some v
  | [], k, v => by simp [alistSet, alistGet]
  | (a, b) :: t, k, v => by
    simp only [alistSet]
    by_cases h : a = k
    · rw [if_pos h]
      simp only [alistGet]
      rw [if_pos h]
    · rw [if_neg h]
      simp only [alistGet]
      rw [if_neg h]
      exact alistGet_set_self t k v

theorem alistGet_set_ne {α : Type} :
    ∀ (m : List (Nat × α)) (k : Nat) (v : α) (k2 : Nat), k2 ≠ k →
      alistGet (alistSet m k v) k2 = alistGet m k2
  | [], k, v, k2, h => by
    simp only [alistSet, alistGet]
    rw [if_neg (by omega)]
  | (a, b) :: t, k, v, k2, h => by
    simp only [alistSet]
    by_cases hp : a = k
    · rw [if_pos hp]
      subst hp
      simp only [alistGet]
      rw [if_neg (by omega), if_neg (by omega)]
    · rw [if_neg hp]
      simp only [alistGet]
      by_cases hk2 : a = k2
      · rw [if_pos hk2, if_pos hk2]
      · rw [if_neg hk2, if_neg hk2]
        exact alistGet_set_ne t k v k2 h

theorem alistGet_delete_ne {α : Type} :
    ∀ (m : List (Nat × α)) (k : Nat) (k2 : Nat), k2 ≠ k →
      alistGet (alistDelete m k) k2 = alistGet m k2
  | [], k, k2, h => by simp [alistDelete]
  | (a, b) :: t, k, k2, h => by
    simp only [alistDelete]
    by_cases hp : a = k
    · rw [if_pos hp]
      subst hp
      simp only [alistGet]
      rw [if_neg (by omega)]
    · rw [if_neg hp]
      simp only [alistGet]
      by_cases hk2 : a = k2
      · rw [if_pos hk2, if_pos hk2]
      · rw [if_neg hk2, if_neg hk2]
        exact alistGet_delete_ne t k k2 h

theorem alistGet_mapval {α β : Type} (f : α → β) (m : List (Nat × α)) (k : Nat) :
    alistGet (m.map (fun p => (p.1, f p.2))) k = (alistGet m k).map f := by
  induction m with
  | nil => rfl
  | cons p t ih =>
    by_cases hp : p.1 = k
    · simp [alistGet, hp]
    · simp [alistGet, hp, ih]

theorem jsSetPad_getD_self (l : List Bool) (i : Nat) (v : Bool) :
    (jsSetPad false l i v).getD i false = v := by
  induction l generalizing i with
  | nil =>
    induction i with
    | zero => rfl
    | succ j ihj => simpa [jsSetPad] using ihj
  | cons h t ih =>
    cases i with
    | zero => rfl
    | succ j => simpa [jsSetPad] using ih j

theorem jsSetPad_getD_ne (l : List Bool) (i : Nat) (v : Bool) (j : Nat)
    (h : j ≠ i) : (jsSetPad false l i v).getD j false = l.getD j false := by
  induction l generalizing i j with
  | nil =>
    induction i generalizing j with
    | zero =>
      cases j with
      | zero => exact absurd rfl h
      | succ j2 => simp [jsSetPad]
    | succ i2 ihi =>
      cases j with
      | zero => rfl
      | succ j2 => simpa [jsSetPad] using ihi j2 (fun hh => h (by omega))
  | cons hd t ih =>
    cases i with
    | zero =>
      cases j with
      | zero => exact absurd rfl h
      | succ j2 => rfl
    | succ i2 =>
      cases j with
      | zero => rfl
      | succ j2 => simpa [jsSetPad] using ih i2 j2 (fun hh => h (by omega))

theorem runGate_false_of_blocked (ts : Int) (s : EngineState)
    (h : (s.isRunning = false ∧ ts ≠ -1) ∨
         (ts ≠ -1 ∧ ts - s.lastTick < s.tickRate)) :
    runGate ts s = false := by
  rcases h with ⟨h1, h2⟩ | ⟨h1, h2⟩
  · simp [runGate, h1, h2]
  · simp [runGate, h1, h2]

/-- C10: a `tick(timestamp)` call with `timestamp ≠ -1` that arrives while the
simulator is paused, or before `tickRate` milliseconds have elapsed since the
last accepted tick, leaves the whole engine state (tick counter, every node's
inputs and outputs, every wire's cached state) unchanged: `tick` returns the
state as-is. -/
theorem tick_gated_noop (compile : Compile) (ts : Int) (s : EngineState)
    (h : (s.isRunning = false ∧ ts ≠ -1) ∨
         (ts ≠ -1 ∧ ts - s.lastTick < s.tickRate)) :
    tick compile ts s = s := by
  have hg := runGate_false_of_blocked ts s h
  simp [tick, hg]

/-- Witness for C10 at a concrete input: a non-forced tick on the paused blank
engine does nothing. -/
theorem tick_gated_noop_witness : tick compileNone 0 emptyEngine = emptyEngine :=
  tick_gated_noop compileNone 0 emptyEngine (Or.inl ⟨rfl, by decide⟩)

/-- C9: the library import loop performs one non-transactional `db.put` per
item; a failure partway through (here: the second put rejects) leaves the
items already written persisted, so a failed import of a valid two-item
document keeps the first item in the store — import is not all-or-nothing. -/
theorem importLibrary_partial_persist :
    importLibraryFromJSON (some [c9ItemA, c9ItemB]) (fun k => k == 0) 1000 50 []
      = .error [{ c9ItemA with id := 50, createdAt := 1000 }] := rfl

theorem tick_clockState (k : Nat) (b : Bool) :
    tick compileNone (-1) (mkClockState k b)
      = mkClockState (k + 1) (decide ((k + 1) / 5 % 2 = 0)) := rfl

theorem clockTicks_closed (k : Nat) :
    clockTicks (k + 1) = mkClockState (k + 1) (decide ((k + 1) / 5 % 2 = 0)) := by
  induction k with
  | zero => rfl
  | succ m ih =>
    show tick compileNone (-1) (clockTicks (m + 1)) = _
    rw [ih]
    exact tick_clockState (m + 1) _

/-- C5 counterexample: reading "tick i" as the i-th of the 10 consecutive
forced ticks on the fresh engine, the claim says ticks 0 through 4 are high;
but the tick counter is incremented before the clock update, so the fifth
forced tick (i = 4) already runs with counter 5 and outputs low. -/
theorem clock_phase_claim_false :
    ¬ (∀ i : Nat, i < 10 →
        clockOut (clockTicks (i + 1)) = some (decide (i < 5))) := by
  intro h
  exact absurd (h 4 (by norm_num)) (by decide)

/-- C5 amended: the tick counter is pre-incremented, so after the k-th forced
tick (k ≥ 1) on the fresh engine the CLOCK output equals
`Math.floor(k / 5) % 2 === 0`: high on forced ticks 1–4, low on 5–9, high
again on 10 — counter values 0–4 map to the high phase, but counter value 0 is
never observed on a live output. -/
theorem clock_output_after_forced_ticks (k : Nat) (hk : 1 ≤ k) :
    clockOut (clockTicks k) = some (decide (k / 5 % 2 = 0)) := by
  obtain ⟨m, rfl⟩ : ∃ m, k = m + 1 := ⟨k - 1, by omega⟩
  rw [clockTicks_closed]
  rfl

/-- Witness for the C5 amended theorem at k = 5: the fifth forced tick outputs
low. -/
theorem clock_output_after_forced_ticks_witness :
    clockOut (clockTicks 5) = some false :=
  clock_output_after_forced_ticks 5 (by norm_num)

theorem applyICResult_inputs (n : LogicNode) (r : ICResult) :
    (applyICResult n r).inputs = n.inputs := by
  rcases r with vs | ⟨outs, st⟩ | _
  · simp [applyICResult]
  · cases outs <;> simp [applyICResult]
  · simp [applyICResult]

theorem applyICResult_ty (n : LogicNode) (r : ICResult) :
    (applyICResult n r).ty = n.ty := by
  rcases r with vs | ⟨outs, st⟩ | _
  · simp [applyICResult]
  · cases outs <;> simp [applyICResult]
  · simp [applyICResult]

theorem applyICResult_id (n : LogicNode) (r : ICResult) :
    (applyICResult n r).id = n.id := by
  rcases r with vs | ⟨outs, st⟩ | _
  · simp [applyICResult]
  · cases outs <;> simp [applyICResult]
  · simp [applyICResult]

theorem evalNodeIC_inputs (compile : Compile) (n : LogicNode)
    (cache : List (Nat × CompiledFn)) :
    (evalNodeIC compile n cache).1.inputs = n.inputs := by
  unfold evalNodeIC
  by_cases hstr : jsStrTruthy n.compiledFunction
  · rw [if_pos hstr]
    rcases hget : alistGet cache n.id with _ | f
    · rcases hcomp : compile (n.compiledFunction.getD "") with _ | f2
      · simp [hget, hcomp]
      · simp [hget, hcomp, applyICResult_inputs]
    · simp [hget, applyICResult_inputs]
  · rw [if_neg hstr]
    rcases htt : n.truthTable with _ | tt
    · simp
    · rcases hl : ttLookup tt n.inputs with _ | bits
      · simp [hl]
      · simp [hl]

theorem evalNodeIC_ty (compile : Compile) (n : LogicNode)
    (cache : List (Nat × CompiledFn)) :
    (evalNodeIC compile n cache).1.ty = n.ty := by
  unfold evalNodeIC
  by_cases hstr : jsStrTruthy n.compiledFunction
  · rw [if_pos hstr]
    rcases hget : alistGet cache n.id with _ | f
    · rcases hcomp : compile (n.compiledFunction.getD "") with _ | f2
      · simp [hget, hcomp]
      · simp [hget, hcomp, applyICResult_ty]
    · simp [hget, applyICResult_ty]
  · rw [if_neg hstr]
    rcases htt : n.truthTable with _ | tt
    · simp
    · rcases hl : ttLookup tt n.inputs with _ | bits
      · simp [hl]
      · simp [hl]

theorem evalNodeIC_id (compile : Compile) (n : LogicNode)
    (cache : List (Nat × CompiledFn)) :
    (evalNodeIC compile n cache).1.id = n.id := by
  unfold evalNodeIC
  by_cases hstr : jsStrTruthy n.compiledFunction
  · rw [if_pos hstr]
    rcases hget : alistGet cache n.id with _ | f
    · rcases hcomp : compile (n.compiledFunction.getD "") with _ | f2
      · simp [hget, hcomp]
      · simp [hget, hcomp, applyICResult_id]
    · simp [hget, applyICResult_id]
  · rw [if_neg hstr]
    rcases htt : n.truthTable with _ | tt
    · simp
    · rcases hl : ttLookup tt n.inputs with _ | bits
      · simp [hl]
      · simp [hl]

theorem evalNodeIC_cacheGet_ne (compile : Compile) (n : LogicNode)
    (cache : List (Nat × CompiledFn)) (key : Nat) (h : key ≠ n.id) :
    alistGet (evalNodeIC compile n cache).2 key = alistGet cache key := by
  unfold evalNodeIC
  by_cases hstr : jsStrTruthy n.compiledFunction
  · rw [if_pos hstr]
    rcases hget : alistGet cache n.id with _ | f
    · rcases hcomp : compile (n.compiledFunction.getD "") with _ | f2
      · simp [hget, hcomp]
      · simp [hget, hcomp, alistGet_set_ne _ _ _ _ h]
    · simp [hget]
  · rw [if_neg hstr]
    rcases htt : n.truthTable with _ | tt
    · simp
    · rcases hl : ttLookup tt n.inputs with _ | bits
      · simp [hl]
      · simp [hl]

theorem evalNode_inputs (compile : Compile) (n : LogicNode)
    (cache : List (Nat × CompiledFn)) :
    (evalNode compile n cache).1.inputs = n.inputs := by
  unfold evalNode
  split
  all_goals simp [evalNodeIC_inputs]

theorem evalNode_ty (compile : Compile) (n : LogicNode)
    (cache : List (Nat × CompiledFn)) :
    (evalNode compile n cache).1.ty = n.ty := by
  unfold evalNode
  split
  all_goals simp [evalNodeIC_ty]

theorem evalNode_id (compile : Compile) (n : LogicNode)
    (cache : List (Nat × CompiledFn)) :
    (evalNode compile n cache).1.id = n.id := by
  unfold evalNode
  split
  all_goals simp [evalNodeIC_id]

theorem evalNode_cacheGet_ne (compile : Compile) (n : LogicNode)
    (cache : List (Nat × CompiledFn)) (key : Nat) (h : key ≠ n.id) :
    alistGet (evalNode compile n cache).2 key = alistGet cache key := by
  unfold evalNode
  split
  all_goals simp [evalNodeIC_cacheGet_ne _ _ _ _ h]

theorem alistGet_mem {α : Type} :
    ∀ (m : List (Nat × α)) (k : Nat) (v : α),
      alistGet m k = some v → (k, v) ∈ m
  | [], k, v, h => by simp [alistGet] at h
  | (a, b) :: t, k, v, h => by
    by_cases ha : a = k
    · subst ha
      have hb : b = v := by simpa [alistGet] using h
      subst hb
      exact List.mem_cons_self _ _
    · have h2 : alistGet t k = some v := by simpa [alistGet, ha] using h
      exact List.mem_cons_of_mem _ (alistGet_mem t k v h2)

theorem evalNodes_cons (compile : Compile) (k1 : Nat) (m : LogicNode)
    (rest : List (Nat × LogicNode)) (cache : List (Nat × CompiledFn)) :
    evalNodes compile ((k1, m) :: rest) cache =
      ((k1, (evalNode compile m cache).1) ::
         (evalNodes compile rest (evalNode compile m cache).2).1,
       (evalNodes compile rest (evalNode compile m cache).2).2) := by
  rcases hev : evalNode compile m cache with ⟨m1, c1⟩
  rw [evalNodes, hev]

theorem evalNodes_get (compile : Compile) :
    ∀ (nodes : List (Nat × LogicNode)) (cache : List (Nat × CompiledFn))
      (k : Nat) (n : LogicNode), alistGet nodes k = some n →
      ∃ c, alistGet (evalNodes compile nodes cache).1 k
             = some (evalNode compile n c).1
  | [], cache, k, n, h => by simp [alistGet] at h
  | (k1, m) :: rest, cache, k, n, h => by
    by_cases hk : k1 = k
    · subst hk
      have hmn : m = n := by simpa [alistGet] using h
      subst hmn
      refine ⟨cache, ?_⟩
      rw [evalNodes_cons]
      simp [alistGet]
    · have h2 : alistGet rest k = some n := by simpa [alistGet, hk] using h
      obtain ⟨c, hc⟩ :=
        evalNodes_get compile rest (evalNode compile m cache).2 k n h2
      refine ⟨c, ?_⟩
      rw [evalNodes_cons]
      simp [alistGet, hk, hc]

theorem evalNodes_get_cache (compile : Compile) :
    ∀ (nodes : List (Nat × LogicNode)) (cache : List (Nat × CompiledFn))
      (k : Nat) (n : LogicNode), (∀ p ∈ nodes, p.2.id = p.1) →
      alistGet nodes k = some n → alistGet cache n.id = none →
      ∃ c, alistGet (evalNodes compile nodes cache).1 k
             = some (evalNode compile n c).1 ∧ alistGet c n.id = none
  | [], cache, k, n, _, h, _ => by simp [alistGet] at h
  | (k1, m) :: rest, cache, k, n, hwf, h, hcache => by
    by_cases hk : k1 = k
    · subst hk
      have hmn : m = n := by simpa [alistGet] using h
      subst hmn
      refine ⟨cache, ?_, hcache⟩
      rw [evalNodes_cons]
      simp [alistGet]
    · have h2 : alistGet rest k = some n := by simpa [alistGet, hk] using h
      have hmid : m.id = k1 := hwf (k1, m) (List.mem_cons_self _ _)
      have hnid : n.id = k := by
        have hmem := alistGet_mem rest k n h2
        exact hwf (k, n) (List.mem_cons_of_mem _ hmem)
      have hc1 : alistGet (evalNode compile m cache).2 n.id = none := by
        have := evalNode_cacheGet_ne compile m cache n.id
          (by rw [hnid, hmid]; exact hk ∘ Eq.symm)
        simpa [this] using hcache
      have hwfrest : ∀ p ∈ rest, p.2.id = p.1 :=
        fun p hp => hwf p (List.mem_cons_of_mem _ hp)
      obtain ⟨c, hc, hcn⟩ := evalNodes_get_cache compile rest
        (evalNode compile m cache).2 k n hwfrest h2 hc1
      refine ⟨c, ?_, hcn⟩
      rw [evalNodes_cons]
      simp [alistGet, hk, hc]

theorem propagateWires_cons_hit (nodes : List (Nat × LogicNode)) (w : Wire)
    (rest : List Wire) (src tgt : LogicNode)
    (hsrc : alistGet nodes w.sourceNodeId = some src)
    (htgt : alistGet nodes w.targetNodeId = some tgt) :
    propagateWires nodes (w :: rest) =
      ((propagateWires (alistSet nodes w.targetNodeId
          (tgt.withInputs (jsSetPad false tgt.inputs w.targetPinIndex
            (src.outputs.getD w.sourcePinIndex false)))) rest).1,
       { w with state := src.outputs.getD w.sourcePinIndex false } ::
         (propagateWires (alistSet nodes w.targetNodeId
            (tgt.withInputs (jsSetPad false tgt.inputs w.targetPinIndex
              (src.outputs.getD w.sourcePinIndex false)))) rest).2) := by
  rw [propagateWires, hsrc, htgt]

theorem propagateWires_cons_miss (nodes : List (Nat × LogicNode)) (w : Wire)
    (rest : List Wire)
    (h : alistGet nodes w.sourceNodeId = none ∨
         alistGet nodes w.targetNodeId = none) :
    propagateWires nodes (w :: rest) =
      ((propagateWires nodes rest).1, w :: (propagateWires nodes rest).2) := by
  rcases h with h | h
  · rw [propagateWires, h]
  · rw [propagateWires, h]
    rcases hs : alistGet nodes w.sourceNodeId with _ | src <;> rfl

theorem propagateWires_get_shape :
    ∀ (ws : List Wire) (nodes : List (Nat × LogicNode)) (k : Nat)
      (n : LogicNode), alistGet nodes k = some n →
      ∃ i, alistGet (propagateWires nodes ws).1 k = some (n.withInputs i)
  | [], nodes, k, n, h =>
    ⟨n.inputs, by simpa [propagateWires, withInputs_self] using h⟩
  | w :: rest, nodes, k, n, h => by
    rcases hsrc : alistGet nodes w.sourceNodeId with _ | src
    · rw [propagateWires_cons_miss nodes w rest (Or.inl hsrc)]
      exact propagateWires_get_shape rest nodes k n h
    · rcases htgt : alistGet nodes w.targetNodeId with _ | tgt
      · rw [propagateWires_cons_miss nodes w rest (Or.inr htgt)]
        exact propagateWires_get_shape rest nodes k n h
      · rw [propagateWires_cons_hit nodes w rest src tgt hsrc htgt]
        by_cases hk : k = w.targetNodeId
        · subst hk
          have htn : tgt = n := by rw [h] at htgt; exact (Option.some.injEq _ _ ▸ htgt).symm
          subst htn
          have hset : alistGet (alistSet nodes w.targetNodeId
              (tgt.withInputs (jsSetPad false tgt.inputs w.targetPinIndex
                (src.outputs.getD w.sourcePinIndex false)))) w.targetNodeId
              = some (tgt.withInputs (jsSetPad false tgt.inputs w.targetPinIndex
                (src.outputs.getD w.sourcePinIndex false))) :=
            alistGet_set_self _ _ _
          obtain ⟨i, hi⟩ := propagateWires_get_shape rest _ w.targetNodeId _ hset
          exact ⟨i, by simpa [withInputs_withInputs] using hi⟩
        · have hset : alistGet (alistSet nodes w.targetNodeId
              (tgt.withInputs (jsSetPad false tgt.inputs w.targetPinIndex
                (src.outputs.getD w.sourcePinIndex false)))) k = some n := by
            rw [alistGet_set_ne _ _ _ _ hk]
            exact h
          exact propagateWires_get_shape rest _ k n hset

theorem propagateWires_inputs_untouched :
    ∀ (ws : List Wire) (nodes : List (Nat × LogicNode)) (B j : Nat)
      (b : LogicNode), alistGet nodes B = some b →
      (∀ w ∈ ws, ¬(w.targetNodeId = B ∧ w.targetPinIndex = j)) →
      ∃ b2, alistGet (propagateWires nodes ws).1 B = some b2 ∧
            b2.inputs.getD j false = b.inputs.getD j false
  | [], nodes, B, j, b, hb, _ => ⟨b, by simpa [propagateWires] using hb, rfl⟩
  | w :: rest, nodes, B, j, b, hb, hno => by
    have hrest : ∀ w2 ∈ rest, ¬(w2.targetNodeId = B ∧ w2.targetPinIndex = j) :=
      fun w2 hw2 => hno w2 (List.mem_cons_of_mem _ hw2)
    rcases hsrc : alistGet nodes w.sourceNodeId with _ | src
    · rw [propagateWires_cons_miss _ _ _ (Or.inl hsrc)]
      exact propagateWires_inputs_untouched rest nodes B j b hb hrest
    · rcases htgt : alistGet nodes w.targetNodeId with _ | tgt
      · rw [propagateWires_cons_miss _ _ _ (Or.inr htgt)]
        exact propagateWires_inputs_untouched rest nodes B j b hb hrest
      · rw [propagateWires_cons_hit nodes w rest src tgt hsrc htgt]
        by_cases hB : w.targetNodeId = B
        · have hpin : w.targetPinIndex ≠ j :=
            fun hp => hno w (List.mem_cons_self _ _) ⟨hB, hp⟩
          subst hB
          have htn : tgt = b := by
            rw [hb] at htgt
            exact Option.some_inj.mp htgt.symm
          subst htn
          have hset := alistGet_set_self nodes w.targetNodeId
            (tgt.withInputs (jsSetPad false tgt.inputs w.targetPinIndex
              (src.outputs.getD w.sourcePinIndex false)))
          obtain ⟨b2, h1, h2⟩ := propagateWires_inputs_untouched rest _
            w.targetNodeId j _ hset hrest
          refine ⟨b2, h1, ?_⟩
          rw [h2]
          simp only [withInputs_inputs]
          exact jsSetPad_getD_ne _ _ _ _ (fun hh => hpin hh.symm)
        · have hset : alistGet (alistSet nodes w.targetNodeId
              (tgt.withInputs (jsSetPad false tgt.inputs w.targetPinIndex
                (src.outputs.getD w.sourcePinIndex false)))) B = some b := by
            rw [alistGet_set_ne _ _ _ _ (fun hh => hB hh.symm)]
            exact hb
          exact propagateWires_inputs_untouched rest _ B j b hset hrest

theorem propagateWires_last_write :
    ∀ (l₁ : List Wire) (w : Wire) (l₂ : List Wire)
      (nodes : List (Nat × LogicNode)) (a b : LogicNode) (v : Bool),
      alistGet nodes w.sourceNodeId = some a →
      a.outputs.getD w.sourcePinIndex false = v →
      alistGet nodes w.targetNodeId = some b →
      (∀ w2 ∈ l₂, ¬(w2.targetNodeId = w.targetNodeId ∧
                    w2.targetPinIndex = w.targetPinIndex)) →
      ∃ b2, alistGet (propagateWires nodes (l₁ ++ w :: l₂)).1 w.targetNodeId
              = some b2 ∧
            b2.inputs.getD w.targetPinIndex false = v
  | [], w, l₂, nodes, a, b, v, ha, hav, hb, hno => by
    rw [List.nil_append, propagateWires_cons_hit nodes w l₂ a b ha hb]
    have hset := alistGet_set_self nodes w.targetNodeId
      (b.withInputs (jsSetPad false b.inputs w.targetPinIndex
        (a.outputs.getD w.sourcePinIndex false)))
    obtain ⟨b2, h1, h2⟩ := propagateWires_inputs_untouched l₂ _
      w.targetNodeId w.targetPinIndex _ hset hno
    refine ⟨b2, h1, ?_⟩
    rw [h2]
    simp only [withInputs_inputs]
    rw [jsSetPad_getD_self, hav]
  | w1 :: rest, w, l₂, nodes, a, b, v, ha, hav, hb, hno => by
    rw [List.cons_append]
    rcases hsrc : alistGet nodes w1.sourceNodeId with _ | src
    · rw [propagateWires_cons_miss _ _ _ (Or.inl hsrc)]
      exact propagateWires_last_write rest w l₂ nodes a b v ha hav hb hno
    · rcases htgt : alistGet nodes w1.targetNodeId with _ | tgt
      · rw [propagateWires_cons_miss _ _ _ (Or.inr htgt)]
        exact propagateWires_last_write rest w l₂ nodes a b v ha hav hb hno
      · rw [propagateWires_cons_hit nodes w1 (rest ++ w :: l₂) src tgt hsrc htgt]
        by_cases hsa : w1.targetNodeId = w.sourceNodeId
        · have htn : tgt = a := by
            rw [hsa, ha] at htgt
            exact Option.some_inj.mp htgt.symm
          by_cases hsb : w1.targetNodeId = w.targetNodeId
          · refine propagateWires_last_write rest w l₂ _
              (tgt.withInputs (jsSetPad false tgt.inputs w1.targetPinIndex
                (src.outputs.getD w1.sourcePinIndex false)))
              (tgt.withInputs (jsSetPad false tgt.inputs w1.targetPinIndex
                (src.outputs.getD w1.sourcePinIndex false))) v ?_ ?_ ?_ hno
            · rw [← hsa]
              exact alistGet_set_self _ _ _
            · rw [withInputs_outputs, htn]
              exact hav
            · rw [← hsb]
              exact alistGet_set_self _ _ _
          · refine propagateWires_last_write rest w l₂ _
              (tgt.withInputs (jsSetPad false tgt.inputs w1.targetPinIndex
                (src.outputs.getD w1.sourcePinIndex false))) b v ?_ ?_ ?_ hno
            · rw [← hsa]
              exact alistGet_set_self _ _ _
            · rw [withInputs_outputs, htn]
              exact hav
            · rw [alistGet_set_ne _ _ _ _ (fun hh => hsb hh.symm)]
              exact hb
        · by_cases hsb : w1.targetNodeId = w.targetNodeId
          · refine propagateWires_last_write rest w l₂ _ a
              (tgt.withInputs (jsSetPad false tgt.inputs w1.targetPinIndex
                (src.outputs.getD w1.sourcePinIndex false))) v ?_ hav ?_ hno
            · rw [alistGet_set_ne _ _ _ _ (fun hh => hsa hh.symm)]
              exact ha
            · rw [← hsb]
              exact alistGet_set_self _ _ _
          · refine propagateWires_last_write rest w l₂ _ a b v ?_ hav ?_ hno
            · rw [alistGet_set_ne _ _ _ _ (fun hh => hsa hh.symm)]
              exact ha
            · rw [alistGet_set_ne _ _ _ _ (fun hh => hsb hh.symm)]
              exact hb

theorem clockPhase_get (tc : Nat) (nodes : List (Nat × LogicNode)) (k : Nat) :
    alistGet (clockPhase tc nodes) k =
      (alistGet nodes k).map (clockFix tc) :=
  alistGet_mapval (clockFix tc) nodes k

theorem resetPhase_get (nodes : List (Nat × LogicNode)) (k : Nat) :
    alistGet (resetPhase nodes) k = (alistGet nodes k).map resetFix :=
  alistGet_mapval resetFix nodes k

theorem jsSetPad_getElem_self (l : List Bool) (i : Nat) (v : Bool) :
    (jsSetPad false l i v)[i]?.getD false = v := by
  rw [← List.getD_eq_getElem?_getD]
  exact jsSetPad_getD_self l i v

theorem tick_nodes_eq (compile : Compile) (ts : Int) (s : EngineState)
    (hrun : runGate ts s = true) :
    (tick compile ts s).nodes =
      (evalNodes compile
        (propagateWires (resetPhase (clockPhase (s.tickCount + 1) s.nodes))
          s.wires).1 s.fnCache).1 := by
  rcases hp : propagateWires (resetPhase (clockPhase (s.tickCount + 1) s.nodes))
      s.wires with ⟨nodes1, wires1⟩
  rcases he : evalNodes compile nodes1 s.fnCache with ⟨nodes2, cache2⟩
  simp [tick, hrun, hp, he]

theorem evalNodes_get_inv (compile : Compile) :
    ∀ (nodes : List (Nat × LogicNode)) (cache : List (Nat × CompiledFn))
      (k : Nat) (n2 : LogicNode),
      alistGet (evalNodes compile nodes cache).1 k = some n2 →
      ∃ m c, alistGet nodes k = some m ∧ n2 = (evalNode compile m c).1
  | [], cache, k, n2, h => by simp [evalNodes, alistGet] at h
  | (k1, m1) :: rest, cache, k, n2, h => by
    rw [evalNodes_cons] at h
    by_cases hk : k1 = k
    · subst hk
      have : (evalNode compile m1 cache).1 = n2 := by simpa [alistGet] using h
      exact ⟨m1, cache, by simp [alistGet], this.symm⟩
    · have h2 : alistGet (evalNodes compile rest (evalNode compile m1 cache).2).1 k
          = some n2 := by simpa [alistGet, hk] using h
      obtain ⟨m, c, hm, hn⟩ := evalNodes_get_inv compile rest
        (evalNode compile m1 cache).2 k n2 h2
      exact ⟨m, c, by simpa [alistGet, hk] using hm, hn⟩

/-- C1: for every node of gate type (AND, OR, NOT, NAND, XOR, BUFFER), one
executed tick leaves the node with output pin 0 computed from its input pins
exactly by the fixed per-type combinational rule (the evaluation phase runs
last and never rewrites inputs, so the node's post-tick inputs are the ones
the rule was applied to). -/
theorem tick_combinational_rule (compile : Compile) (ts : Int) (s : EngineState)
    (k : Nat) (n2 : LogicNode) (hrun : runGate ts s = true)
    (hget : alistGet (tick compile ts s).nodes k = some n2)
    (hty : n2.ty = .AND ∨ n2.ty = .OR ∨ n2.ty = .NOT ∨ n2.ty = .NAND ∨
           n2.ty = .XOR ∨ n2.ty = .BUFFER) :
    n2.outputs.getD 0 false = specGateRule n2.ty n2.inputs := by
  rw [tick_nodes_eq compile ts s hrun] at hget
  obtain ⟨m, c, hm, hn⟩ := evalNodes_get_inv compile _ _ k n2 hget
  have hmty : m.ty = n2.ty := by rw [hn, evalNode_ty]
  rcases hty with h | h | h | h | h | h <;>
    rw [hn] <;>
    simp [evalNode, hmty.trans h, specGateRule] <;>
    exact jsSetPad_getElem_self _ _ _

/-- Witness for C1 at a concrete input: the lone AND node of `c1State` after
one forced tick (its inputs were reset to false, no wires feed it). -/
theorem tick_combinational_rule_witness :
    c1Node.outputs.getD 0 false = specGateRule c1Node.ty c1Node.inputs := by
  have hget : alistGet (tick compileNone (-1) c1State).nodes 1 = some c1Node := by
    rfl
  exact tick_combinational_rule compileNone (-1) c1State 1 c1Node (by decide)
    hget (by decide)

/-- C2 counterexample: in `c2State` two wires feed AND-node 3's input pin 0;
wire 4 comes from switch 1 whose output is high at tick start, but wire 5
(from the low switch 2) is processed later and wins, so after one tick
`B.inputs[0]` is false while `A.outputs[0]` stood true at tick start —
the claim fails for wire 4. -/
theorem tick_propagation_claim_false :
    (alistGet c2State.nodes 1).map (fun n => n.outputs.getD 0 false)
        = some true ∧
    (alistGet (tick compileNone (-1) c2State).nodes 3).map
        (fun n => n.inputs.getD 0 false) = some false := by
  constructor
  · rfl
  · rfl

theorem resetFix_outputs (n : LogicNode) : (resetFix n).outputs = n.outputs := by
  unfold resetFix
  split <;> simp

/-- C2 amended: for a wire from node A's output pin i to node B's input pin j
where both endpoints exist, A is not a CLOCK (the clock phase rewrites CLOCK
outputs before propagation), and no later wire in the list targets the same
input pin (the propagation loop lets the last writer win), one executed tick
makes `B.inputs[j]` equal `A.outputs[i]` as it stood at tick start; the
evaluation phase runs last and never touches inputs, so same-tick feedback
stays one tick delayed. -/
theorem tick_propagation_last_wire (compile : Compile) (ts : Int)
    (s : EngineState) (w : Wire) (l₁ l₂ : List Wire) (a b : LogicNode)
    (hrun : runGate ts s = true)
    (hwires : s.wires = l₁ ++ w :: l₂)
    (hlast : ∀ w2 ∈ l₂, ¬(w2.targetNodeId = w.targetNodeId ∧
                          w2.targetPinIndex = w.targetPinIndex))
    (ha : alistGet s.nodes w.sourceNodeId = some a)
    (hb : alistGet s.nodes w.targetNodeId = some b)
    (hclk : a.ty ≠ .CLOCK) :
    (alistGet (tick compile ts s).nodes w.targetNodeId).map
        (fun n => n.inputs.getD w.targetPinIndex false)
      = some (a.outputs.getD w.sourcePinIndex false) := by
  rw [tick_nodes_eq compile ts s hrun, hwires]
  have hclkA : clockFix (s.tickCount + 1) a = a := by
    unfold clockFix
    rw [if_neg hclk]
  have ha2 : alistGet (resetPhase (clockPhase (s.tickCount + 1) s.nodes))
      w.sourceNodeId = some (resetFix a) := by
    rw [resetPhase_get, clockPhase_get, ha]
    simp [hclkA]
  have hb2 : alistGet (resetPhase (clockPhase (s.tickCount + 1) s.nodes))
      w.targetNodeId = some (resetFix (clockFix (s.tickCount + 1) b)) := by
    rw [resetPhase_get, clockPhase_get, hb]
    rfl
  have hout : (resetFix a).outputs.getD w.sourcePinIndex false
      = a.outputs.getD w.sourcePinIndex false := by
    rw [resetFix_outputs]
  obtain ⟨b2, hb2get, hval⟩ := propagateWires_last_write l₁ w l₂ _
    (resetFix a) (resetFix (clockFix (s.tickCount + 1) b))
    (a.outputs.getD w.sourcePinIndex false) ha2 hout hb2 hlast
  obtain ⟨c, hc⟩ := evalNodes_get compile _ s.fnCache w.targetNodeId b2 hb2get
  rw [hc]
  exact congrArg some (by simp only [evalNode_inputs]; exact hval)

/-- Witness for the C2 amended theorem: applied to the last wire of `c2State`
(wire 5, from the low switch 2), one forced tick sets the AND's input pin 0 to
that switch's tick-start output. -/
theorem tick_propagation_last_wire_witness :
    (alistGet (tick compileNone (-1) c2State).nodes 3).map
        (fun n => n.inputs.getD 0 false) = some false :=
  tick_propagation_last_wire compileNone (-1) c2State ⟨5, 2, 0, 3, 0, false⟩
    [⟨4, 1, 0, 3, 0, false⟩] [] (mkSimpleNode 2 .SWITCH ⟨0, 100⟩ [] [false] none)
    (mkSimpleNode 3 .AND ⟨200, 50⟩ [false, false] [false] none)
    (by decide) rfl (by simp) rfl rfl (by decide)

theorem clockFix_id (tc : Nat) (n : LogicNode) : (clockFix tc n).id = n.id := by
  unfold clockFix
  split <;> simp

theorem resetFix_id (n : LogicNode) : (resetFix n).id = n.id := by
  unfold resetFix
  split <;> simp

theorem mem_alistSet {α : Type} :
    ∀ (m : List (Nat × α)) (k : Nat) (v : α) (p : Nat × α),
      p ∈ alistSet m k v → p = (k, v) ∨ p ∈ m
  | [], k, v, p, h => by simpa [alistSet] using h
  | (a, b) :: t, k, v, p, h => by
    by_cases ha : a = k
    · subst ha
      rcases by simpa [alistSet] using h with h1 | h1
      · exact Or.inl (by simp [h1])
      · exact Or.inr (List.mem_cons_of_mem _ h1)
    · rcases by simpa [alistSet, ha] using h with h1 | h1
      · exact Or.inr (by simp [h1])
      · rcases mem_alistSet t k v p h1 with h2 | h2
        · exact Or.inl h2
        · exact Or.inr (List.mem_cons_of_mem _ h2)

theorem idConsistent_map (nodes : List (Nat × LogicNode)) (f : LogicNode → LogicNode)
    (hf : ∀ x, (f x).id = x.id) (h : ∀ p ∈ nodes, p.2.id = p.1) :
    ∀ p ∈ nodes.map (fun q => (q.1, f q.2)), p.2.id = p.1 := by
  intro p hp
  obtain ⟨q, hq, rfl⟩ := List.mem_map.mp hp
  simp [hf, h q hq]

theorem idConsistent_clockPhase (tc : Nat) (nodes : List (Nat × LogicNode))
    (h : ∀ p ∈ nodes, p.2.id = p.1) :
    ∀ p ∈ clockPhase tc nodes, p.2.id = p.1 :=
  idConsistent_map nodes (clockFix tc) (clockFix_id tc) h

theorem idConsistent_resetPhase (nodes : List (Nat × LogicNode))
    (h : ∀ p ∈ nodes, p.2.id = p.1) :
    ∀ p ∈ resetPhase nodes, p.2.id = p.1 :=
  idConsistent_map nodes resetFix resetFix_id h

theorem idConsistent_alistSet (m : List (Nat × LogicNode)) (k : Nat)
    (v : LogicNode) (hv : v.id = k) (h : ∀ p ∈ m, p.2.id = p.1) :
    ∀ p ∈ alistSet m k v, p.2.id = p.1 := by
  intro p hp
  rcases mem_alistSet m k v p hp with h1 | h1
  · rw [h1]
    exact hv
  · exact h p h1

theorem idConsistent_propagate :
    ∀ (ws : List Wire) (nodes : List (Nat × LogicNode)),
      (∀ p ∈ nodes, p.2.id = p.1) →
      ∀ p ∈ (propagateWires nodes ws).1, p.2.id = p.1
  | [], nodes, h => by simpa [propagateWires] using h
  | w :: rest, nodes, h => by
    rcases hsrc : alistGet nodes w.sourceNodeId with _ | src
    · rw [propagateWires_cons_miss _ _ _ (Or.inl hsrc)]
      exact idConsistent_propagate rest nodes h
    · rcases htgt : alistGet nodes w.targetNodeId with _ | tgt
      · rw [propagateWires_cons_miss _ _ _ (Or.inr htgt)]
        exact idConsistent_propagate rest nodes h
      · rw [propagateWires_cons_hit nodes w rest src tgt hsrc htgt]
        apply idConsistent_propagate rest
        apply idConsistent_alistSet
        · have := h _ (alistGet_mem nodes w.targetNodeId tgt htgt)
          simpa using this
        · exact h

theorem evalNodeIC_compile_fail (compile : Compile) (n : LogicNode)
    (cache : List (Nat × CompiledFn)) (body : String)
    (hcf : n.compiledFunction = some body) (hne : body ≠ "")
    (hcache : alistGet cache n.id = none) (hcomp : compile body = none) :
    evalNodeIC compile n cache = (n, cache) := by
  unfold evalNodeIC
  rw [if_pos (by simp [jsStrTruthy, hcf, hne])]
  simp [hcache, hcf, hcomp]

theorem evalNodeIC_tt_miss (compile : Compile) (n : LogicNode)
    (cache : List (Nat × CompiledFn)) (tt : List (List Bool × List Int))
    (hstr : jsStrTruthy n.compiledFunction = false)
    (htt : n.truthTable = some tt) (hmiss : ttLookup tt n.inputs = none) :
    evalNodeIC compile n cache = (n, cache) := by
  unfold evalNodeIC
  rw [if_neg (by simp [hstr])]
  simp [htt, hmiss]

/-- C4: during the evaluation phase of a tick, (a) an IC whose generated code
body fails to compile (the `new Function` site throws, caught and logged) has
its outputs and internal state left unchanged for that tick — the tick
completes normally for the rest of the graph; and (b) an IC carrying only a
static truth table whose current input bit-string matches no key leaves its
outputs unchanged. -/
theorem ic_eval_robustness :
    (∀ (compile : Compile) (ts : Int) (s : EngineState) (k : Nat)
       (n : LogicNode) (body : String),
       runGate ts s = true →
       (∀ p ∈ s.nodes, p.2.id = p.1) →
       alistGet s.nodes k = some n →
       n.ty = .IC →
       n.compiledFunction = some body →
       body ≠ "" →
       alistGet s.fnCache n.id = none →
       compile body = none →
       (alistGet (tick compile ts s).nodes k).map
           (fun m => (m.outputs, m.internalState))
         = some (n.outputs, n.internalState)) ∧
    (∀ (compile : Compile) (n : LogicNode) (cache : List (Nat × CompiledFn))
       (tt : List (List Bool × List Int)),
       n.ty = .IC →
       jsStrTruthy n.compiledFunction = false →
       n.truthTable = some tt →
       ttLookup tt n.inputs = none →
       (evalNode compile n cache).1.outputs = n.outputs) := by
  constructor
  · intro compile ts s k n body hrun hwf hget hty hcf hne hcache hcomp
    rw [tick_nodes_eq compile ts s hrun]
    have hclkn : clockFix (s.tickCount + 1) n = n := by
      unfold clockFix
      rw [if_neg (by rw [hty]; intro hh; cases hh)]
    have hget2 : alistGet (resetPhase (clockPhase (s.tickCount + 1) s.nodes)) k
        = some (resetFix n) := by
      rw [resetPhase_get, clockPhase_get, hget]
      simp [hclkn]
    obtain ⟨i, hget3⟩ := propagateWires_get_shape s.wires _ k (resetFix n) hget2
    have hwf3 : ∀ p ∈ (propagateWires
        (resetPhase (clockPhase (s.tickCount + 1) s.nodes)) s.wires).1,
        p.2.id = p.1 :=
      idConsistent_propagate s.wires _
        (idConsistent_resetPhase _ (idConsistent_clockPhase _ _ hwf))
    have hrid : ((resetFix n).withInputs i).id = n.id := by
      rw [withInputs_id, resetFix_id]
    have hcache2 : alistGet s.fnCache ((resetFix n).withInputs i).id = none := by
      rw [hrid]
      exact hcache
    obtain ⟨c, hc, hcn⟩ := evalNodes_get_cache compile _ s.fnCache k
      ((resetFix n).withInputs i) hwf3 hget3 hcache2
    have hty2 : ((resetFix n).withInputs i).ty = .IC := by
      rw [withInputs_ty]
      unfold resetFix
      split <;> simp [hty]
    have hcf2 : ((resetFix n).withInputs i).compiledFunction = some body := by
      rw [withInputs_compiledFunction]
      unfold resetFix
      split <;> simp [hcf]
    have heval : evalNode compile ((resetFix n).withInputs i) c
        = (((resetFix n).withInputs i), c) := by
      have hICarm : evalNode compile ((resetFix n).withInputs i) c
          = evalNodeIC compile ((resetFix n).withInputs i) c := by
        unfold evalNode
        rw [hty2]
      rw [hICarm]
      exact evalNodeIC_compile_fail compile _ c body hcf2 hne
        (hrid ▸ hcn) hcomp
    rw [hc, heval]
    have houts : ((resetFix n).withInputs i).outputs = n.outputs := by
      rw [withInputs_outputs, resetFix_outputs]
    have hst : ((resetFix n).withInputs i).internalState = n.internalState := by
      rw [withInputs_internalState]
      unfold resetFix
      split <;> simp
    simp [houts, hst]
  · intro compile n cache tt hty hstr htt hmiss
    have hICarm : evalNode compile n cache = evalNodeIC compile n cache := by
      unfold evalNode
      rw [hty]
    rw [hICarm, evalNodeIC_tt_miss compile n cache tt hstr htt hmiss]

/-- Witness for C4 at concrete inputs: the failing-compile IC of `c4State`
keeps outputs `[true]` and state `[0]` across a forced tick, and the
truth-table IC `c4TTIC` with unmatched inputs keeps its outputs under
evaluation. -/
theorem ic_eval_robustness_witness :
    (alistGet (tick compileNone (-1) c4State).nodes 2).map
        (fun m => (m.outputs, m.internalState))
      = some (c4IC.outputs, c4IC.internalState) ∧
    (evalNode compileNone c4TTIC []).1.outputs = c4TTIC.outputs := by
  constructor
  · exact ic_eval_robustness.1 compileNone (-1) c4State 2 c4IC "return null;"
      (by decide) (by decide) rfl rfl rfl (by decide) rfl rfl
  · exact ic_eval_robustness.2 compileNone c4TTIC [] [([true, true], [1])]
      rfl rfl rfl rfl

/-- C3 counterexample: on the freshly unpacked graph (`c3Final`), toggling
both switches on and forcing ONE tick leaves the LIGHT's input pin 0 false —
the first tick only recomputes the AND's output; the light input turns true
one tick later, so the claim's single-tick behavioural assertion fails. -/
theorem pack_unpack_one_tick_claim_false :
    (alistGet c3T1.nodes 24).map (fun n => n.inputs.getD 0 false)
      = some false := by decide

/-- C3 amended: packing the two-switch/AND/light group into an IC and
unpacking reproduces the node-type counts (2 SWITCH, 1 AND, 1 LIGHT), the
same pin-to-pin wiring under the fresh-identity renaming `id ↦ id + 20`, and
the same simulated behaviour with the signal delay made explicit: after
toggling both fresh switches on, the AND output is recomputed on the first
forced tick and the LIGHT's input pin 0 is true after the second forced
tick. -/
theorem pack_unpack_round_trip :
    countTy c3Final .SWITCH = countTy c3Init .SWITCH ∧
    countTy c3Final .AND = countTy c3Init .AND ∧
    countTy c3Final .LIGHT = countTy c3Init .LIGHT ∧
    (alistGet c3Final.nodes 21).map (fun n => n.ty) = some .SWITCH ∧
    (alistGet c3Final.nodes 22).map (fun n => n.ty) = some .SWITCH ∧
    (alistGet c3Final.nodes 23).map (fun n => n.ty) = some .AND ∧
    (alistGet c3Final.nodes 24).map (fun n => n.ty) = some .LIGHT ∧
    c3Final.wires.map (fun w =>
        (w.sourceNodeId, w.sourcePinIndex, w.targetNodeId, w.targetPinIndex))
      = c3Init.wires.map (fun w =>
        (w.sourceNodeId + 20, w.sourcePinIndex, w.targetNodeId + 20,
         w.targetPinIndex)) ∧
    (alistGet c3T1.nodes 23).map (fun n => n.outputs.getD 0 false)
      = some true ∧
    (alistGet c3T2.nodes 24).map (fun n => n.inputs.getD 0 false)
      = some true := by decide

/-- Propositional form of wire closure over given node and wire collections. -/
def ClosedNW (nodes : List (Nat × LogicNode)) (wires : List Wire) : Prop :=
  ∀ w ∈ wires, (alistGet nodes w.sourceNodeId).isSome = true ∧
               (alistGet nodes w.targetNodeId).isSome = true

theorem wiresClosedB_iff (s : EngineState) :
    wiresClosedB s = true ↔ ClosedNW s.nodes s.wires := by
  simp [wiresClosedB, ClosedNW, List.all_eq_true, Bool.and_eq_true]

theorem saveState_nodes (s : EngineState) : (saveState s).nodes = s.nodes := by
  unfold saveState
  dsimp only
  repeat' split
  all_goals rfl

theorem saveState_wires (s : EngineState) : (saveState s).wires = s.wires := by
  unfold saveState
  dsimp only
  repeat' split
  all_goals rfl

theorem ClosedNW_filter (nodes : List (Nat × LogicNode)) (wires : List Wire)
    (p : Wire → Bool) (h : ClosedNW nodes wires) :
    ClosedNW nodes (wires.filter p) := by
  intro w hw
  exact h w (List.mem_of_mem_filter hw)

theorem deleteNodeStep_closed (st : EngineState) (id : Nat)
    (h : ClosedNW st.nodes st.wires) :
    ClosedNW (deleteNodeStep st id).nodes (deleteNodeStep st id).wires := by
  intro w hw
  simp only [deleteNodeStep, List.mem_filter, decide_eq_true_eq] at hw
  obtain ⟨hw1, hsrc, htgt⟩ := hw
  obtain ⟨h1, h2⟩ := h w hw1
  constructor
  · simp only [deleteNodeStep]
    rw [alistGet_mapval (groupClear id), alistGet_delete_ne _ _ _ hsrc]
    simpa using h1
  · simp only [deleteNodeStep]
    rw [alistGet_mapval (groupClear id), alistGet_delete_ne _ _ _ htgt]
    simpa using h2

theorem deleteFold_closed :
    ∀ (ids : List Nat) (st : EngineState), ClosedNW st.nodes st.wires →
      ClosedNW (ids.foldl deleteNodeStep st).nodes
               (ids.foldl deleteNodeStep st).wires
  | [], st, h => h
  | id :: rest, st, h =>
    deleteFold_closed rest (deleteNodeStep st id) (deleteNodeStep_closed st id h)

theorem foldDelete_get :
    ∀ (l : List LogicNode) (m : List (Nat × LogicNode)) (e : Nat),
      (∀ n ∈ l, n.id ≠ e) →
      alistGet (l.foldl (fun m n => alistDelete m n.id) m) e = alistGet m e
  | [], m, e, _ => rfl
  | n :: t, m, e, h => by
    rw [List.foldl_cons,
      foldDelete_get t (alistDelete m n.id) e
        (fun x hx => h x (List.mem_cons_of_mem _ hx)),
      alistGet_delete_ne _ _ _ (fun hh => h n (List.mem_cons_self _ _) hh.symm)]

/-- C6 counterexample: unpacking the IC of `c6State` deletes the IC node but
does not prune the external wire that fed its input pin, so a wire referencing
the removed node id remains — the claim fails for `unpackICToGroup`. -/
theorem unpack_dangling_claim_false :
    ¬ (∀ w ∈ c6After.wires,
        (alistGet c6After.nodes w.sourceNodeId).isSome = true ∧
        (alistGet c6After.nodes w.targetNodeId).isSome = true) := by decide

/-- C6 amended: deleting the selection and packing a group both preserve wire
closure — every wire in the result still has both endpoint nodes present in
the node map (pack reuses the group's id for the new IC, so wires attached to
the group stay valid); unpacking an IC is excluded, as it leaves wires
attached to the deleted IC dangling (they are skipped defensively by the tick
loop, which is total). -/
theorem delete_pack_preserve_closure (s : EngineState)
    (h : wiresClosedB s = true) :
    wiresClosedB (deleteSelected s) = true ∧
    wiresClosedB (packGroupToIC s) = true := by
  rw [wiresClosedB_iff] at h
  constructor
  · rw [wiresClosedB_iff]
    unfold deleteSelected
    split
    · exact h
    · have h1 : ClosedNW (saveState s).nodes (saveState s).wires := by
        rw [saveState_nodes, saveState_wires]
        exact h
      have h2 := deleteFold_closed s.selectedNodeIds (saveState s) h1
      dsimp only
      split
      · exact ClosedNW_filter _ _ _ h2
      · exact h2
  · rw [wiresClosedB_iff]
    unfold packGroupToIC
    split
    · exact h
    next groupId hfind =>
      split
      · exact h
      next groupNode hget =>
        dsimp only
        split
        · exact h
        next hguard =>
          intro w hw
          simp only [List.mem_filter, decide_eq_true_eq, saveState_wires] at hw
          obtain ⟨hw1, hnsrc, hntgt⟩ := hw
          obtain ⟨hsome1, hsome2⟩ := h w hw1
          simp only [List.any_eq_true, beq_iff_eq, not_exists, not_and] at hnsrc hntgt
          constructor
          · by_cases heg : w.sourceNodeId = groupId
            · rw [heg, alistGet_set_self]
              rfl
            · rw [alistGet_set_ne _ _ _ _ heg, alistGet_delete_ne _ _ _ heg,
                foldDelete_get _ _ _ (fun n hn => hnsrc n hn), saveState_nodes]
              exact hsome1
          · by_cases heg : w.targetNodeId = groupId
            · rw [heg, alistGet_set_self]
              rfl
            · rw [alistGet_set_ne _ _ _ _ heg, alistGet_delete_ne _ _ _ heg,
                foldDelete_get _ _ _ (fun n hn => hntgt n hn), saveState_nodes]
              exact hsome2

/-- Witness for the C6 amended theorem on the concrete group fixture: deleting
its selection and packing its group both leave every wire endpoint present. -/
theorem delete_pack_preserve_closure_witness :
    wiresClosedB (deleteSelected c3Init) = true ∧
    wiresClosedB (packGroupToIC c3Init) = true :=
  delete_pack_preserve_closure c3Init (by decide)

theorem set_get_self :
    ∀ (l : List Nat) (i : Nat) (h : i < l.length), l.set i (l.get ⟨i, h⟩) = l
  | a :: t, 0, _ => rfl
  | a :: t, i + 1, h => by
    simp only [List.set, List.get]
    rw [set_get_self t i (by simpa using h)]

theorem getD_eq_get :
    ∀ (l : List Nat) (i : Nat) (h : i < l.length) (d : Nat),
      l.getD i d = l.get ⟨i, h⟩
  | a :: t, 0, _, d => rfl
  | a :: t, i + 1, h, d => by
    simpa [List.getD] using getD_eq_get t i (by simpa using h) d

theorem set_head_perm :
    ∀ (t : List Nat) (k : Nat) (hk : k < t.length) (a : Nat),
      List.Perm (t.get ⟨k, hk⟩ :: t.set k a) (a :: t)
  | b :: t, 0, _, a => List.Perm.swap a b t
  | b :: t, k + 1, hk, a => by
    simp only [List.set, List.get]
    exact (List.Perm.swap b _ _).trans
      ((List.Perm.cons b (set_head_perm t k (by simpa using hk) a)).trans
        (List.Perm.swap a b t))

theorem swapSet_perm :
    ∀ (l : List Nat) (i j : Nat) (hi : i < l.length) (hj : j < l.length),
      List.Perm ((l.set i (l.get ⟨j, hj⟩)).set j (l.get ⟨i, hi⟩)) l
  | [], i, j, hi, _ => absurd hi (by simp)
  | a :: t, 0, 0, _, _ => by simp
  | a :: t, 0, j + 1, hi, hj => by
    simp only [List.set, List.get]
    exact set_head_perm t j (by simpa using hj) a
  | a :: t, i + 1, 0, hi, hj => by
    simp only [List.set, List.get]
    exact set_head_perm t i (by simpa using hi) a
  | a :: t, i + 1, j + 1, hi, hj => by
    simp only [List.set, List.get]
    exact List.Perm.cons a
      (swapSet_perm t i j (by simpa using hi) (by simpa using hj))

theorem jsIndexOf_spec :
    ∀ (l : List Nat) (v : Nat), v ∈ l →
      ∃ (k : Nat) (hk : k < l.length),
        jsIndexOf l v = (k : Int) ∧ l.get ⟨k, hk⟩ = v
  | [], v, hv => absurd hv (by simp)
  | a :: t, v, hv => by
    by_cases h : a = v
    · exact ⟨0, by simp, by simp [jsIndexOf, h], by simpa using h⟩
    · have hvt : v ∈ t := by
        rcases List.mem_cons.mp hv with h1 | h1
        · exact absurd h1.symm h
        · exact h1
      obtain ⟨k, hk, hidx, hget⟩ := jsIndexOf_spec t v hvt
      refine ⟨k + 1, by simpa using Nat.succ_lt_succ hk, ?_, by simpa using hget⟩
      have hne : (k : Int) ≠ -1 := by omega
      simp only [jsIndexOf, h, if_false]
      rw [hidx, if_neg hne]
      push_cast
      ring

theorem mappingOk_getD (o : Option (List Nat)) (c : Nat) (h : mappingOk o c) :
    List.Perm (o.getD (List.range c)) (List.range c) := by
  rcases h with h | ⟨m, hm, hp⟩
  · rw [h]
    exact List.Perm.refl _
  · rw [hm]
    exact hp

/-- Core permutation preservation of the `updateIOMapping` swap step. -/
theorem remapStep_perm (m : List Nat) (n pinIndex portIndex : Nat)
    (hm : List.Perm m (List.range n)) (hpin : pinIndex < n)
    (hport : portIndex < n) :
    List.Perm (remapStep m pinIndex portIndex) (List.range n) := by
  have hlen : m.length = n := by
    rw [hm.length_eq, List.length_range]
  have hpin2 : pinIndex < m.length := by rw [hlen]; exact hpin
  have hmem : portIndex ∈ m := hm.mem_iff.mpr (List.mem_range.mpr hport)
  obtain ⟨k, hk, hidx, hget⟩ := jsIndexOf_spec m portIndex hmem
  unfold remapStep
  rw [hidx]
  dsimp only
  by_cases hkp : k = pinIndex
  · rw [if_neg (by simp [hkp])]
    subst hkp
    rw [← hget, set_get_self m k hk]
    exact hm
  · rw [if_pos ⟨by omega, by omega⟩]
    rw [getD_eq_get m pinIndex hpin2]
    have htn : ((k : Int)).toNat = k := Int.toNat_natCast k
    rw [htn, ← hget]
    exact (swapSet_perm m k pinIndex hk hpin2).trans hm

/-- One `updateIOMapping` call on an IC node keeps the node present, keeps its
type and declared pin counts, and keeps both mapping fields permutations of
their port ranges. -/
theorem updateIOMapping_step (s : EngineState) (nodeId : Nat) (n : LogicNode)
    (cin cout : Nat) (dir : PinDir) (pinIndex portIndex : Nat)
    (hget : alistGet s.nodes nodeId = some n)
    (hty : n.ty = .IC)
    (hcin : n.inputCount = some cin) (hcout : n.outputCount = some cout)
    (hmi : mappingOk n.inputMapping cin) (hmo : mappingOk n.outputMapping cout)
    (hin : dir = .input → pinIndex < cin ∧ portIndex < cin)
    (hout : dir = .output → pinIndex < cout ∧ portIndex < cout) :
    ∃ n2, alistGet (updateIOMapping s nodeId dir pinIndex portIndex).nodes nodeId
            = some n2 ∧
          n2.ty = .IC ∧ n2.inputCount = some cin ∧ n2.outputCount = some cout ∧
          mappingOk n2.inputMapping cin ∧ mappingOk n2.outputMapping cout := by
  unfold updateIOMapping
  rw [hget]
  dsimp only
  rw [if_neg (by simp [hty])]
  cases dir with
  | input =>
    obtain ⟨hp1, hp2⟩ := hin rfl
    dsimp only
    refine ⟨_, alistGet_set_self _ _ _, ?_, ?_, ?_, ?_, ?_⟩
    · simp [hty]
    · simp [hcin]
    · simp [hcout]
    · refine Or.inr ⟨_, by rw [withInputMapping_inputMapping], ?_⟩
      rw [hcin]
      simp only [Option.getD_some]
      exact remapStep_perm _ cin pinIndex portIndex (mappingOk_getD _ _ hmi) hp1 hp2
    · rw [withInputMapping_outputMapping]
      exact hmo
  | output =>
    obtain ⟨hp1, hp2⟩ := hout rfl
    dsimp only
    refine ⟨_, alistGet_set_self _ _ _, ?_, ?_, ?_, ?_, ?_⟩
    · simp [hty]
    · simp [hcin]
    · simp [hcout]
    · rw [withOutputMapping_inputMapping]
      exact hmi
    · refine Or.inr ⟨_, by rw [withOutputMapping_outputMapping], ?_⟩
      rw [hcout]
      simp only [Option.getD_some]
      exact remapStep_perm _ cout pinIndex portIndex (mappingOk_getD _ _ hmo) hp1 hp2

/-- Iterating `updateIOMapping` over any call list preserves the node's
presence, type, declared counts, and both mapping invariants. -/
theorem updateIOMapping_fold :
    ∀ (calls : List (PinDir × Nat × Nat)) (s : EngineState)
      (nodeId cin cout : Nat) (n : LogicNode),
      alistGet s.nodes nodeId = some n → n.ty = .IC →
      n.inputCount = some cin → n.outputCount = some cout →
      mappingOk n.inputMapping cin → mappingOk n.outputMapping cout →
      (∀ c ∈ calls, (c.1 = PinDir.input → c.2.1 < cin ∧ c.2.2 < cin) ∧
                    (c.1 = PinDir.output → c.2.1 < cout ∧ c.2.2 < cout)) →
      ∃ n2,
        alistGet (calls.foldl
            (fun st c => updateIOMapping st nodeId c.1 c.2.1 c.2.2) s).nodes
          nodeId = some n2 ∧
        n2.ty = .IC ∧ n2.inputCount = some cin ∧ n2.outputCount = some cout ∧
        mappingOk n2.inputMapping cin ∧ mappingOk n2.outputMapping cout
  | [], _, _, _, _, n, hget, hty, hcin, hcout, hmi, hmo, _ =>
    ⟨n, hget, hty, hcin, hcout, hmi, hmo⟩
  | c :: rest, s, nodeId, cin, cout, n, hget, hty, hcin, hcout, hmi, hmo, hcalls => by
    rw [List.foldl_cons]
    obtain ⟨n2, hg2, ht2, hci2, hco2, hmi2, hmo2⟩ :=
      updateIOMapping_step s nodeId n cin cout c.1 c.2.1 c.2.2 hget hty hcin hcout
        hmi hmo (fun h => (hcalls c (List.mem_cons_self _ _)).1 h)
        (fun h => (hcalls c (List.mem_cons_self _ _)).2 h)
    exact updateIOMapping_fold rest _ nodeId cin cout n2 hg2 ht2 hci2 hco2 hmi2 hmo2
      (fun c2 hc2 => hcalls c2 (List.mem_cons_of_mem _ hc2))

/-- C7: for an IC node whose declared input count is `cin` and output count is
`cout`, and whose pin mappings are unset or already permutations, after any
sequence of `updateIOMapping` calls with in-range pin and port indices (the
only calls the properties-panel dropdowns can issue) the node is still present
and its effective input mapping is a permutation of `0..cin-1` and its
effective output mapping a permutation of `0..cout-1` — the swap rule never
creates duplicate port targets or gaps. -/
theorem remap_bijection (s : EngineState) (nodeId cin cout : Nat)
    (n : LogicNode) (calls : List (PinDir × Nat × Nat))
    (hget : alistGet s.nodes nodeId = some n) (hty : n.ty = .IC)
    (hcin : n.inputCount = some cin) (hcout : n.outputCount = some cout)
    (hmi : mappingOk n.inputMapping cin) (hmo : mappingOk n.outputMapping cout)
    (hcalls : ∀ c ∈ calls, (c.1 = PinDir.input → c.2.1 < cin ∧ c.2.2 < cin) ∧
                           (c.1 = PinDir.output → c.2.1 < cout ∧ c.2.2 < cout)) :
    (alistGet (calls.foldl
        (fun st c => updateIOMapping st nodeId c.1 c.2.1 c.2.2) s).nodes
      nodeId).isSome = true ∧
    List.Perm
      (((alistGet (calls.foldl
            (fun st c => updateIOMapping st nodeId c.1 c.2.1 c.2.2) s).nodes
          nodeId).bind LogicNode.inputMapping).getD (List.range cin))
      (List.range cin) ∧
    List.Perm
      (((alistGet (calls.foldl
            (fun st c => updateIOMapping st nodeId c.1 c.2.1 c.2.2) s).nodes
          nodeId).bind LogicNode.outputMapping).getD (List.range cout))
      (List.range cout) := by
  obtain ⟨n2, hg2, _, _, _, hmi2, hmo2⟩ :=
    updateIOMapping_fold calls s nodeId cin cout n hget hty hcin hcout hmi hmo hcalls
  rw [hg2]
  exact ⟨rfl, mappingOk_getD _ _ hmi2, mappingOk_getD _ _ hmo2⟩

/-- Concrete run of the remap-bijection theorem: the IC of `c7State` after the
three calls of `c7Calls`. -/
theorem remap_bijection_witness :
    (alistGet (c7Calls.foldl
        (fun st c => updateIOMapping st 5 c.1 c.2.1 c.2.2) c7State).nodes
      5).isSome = true ∧
    List.Perm
      (((alistGet (c7Calls.foldl
            (fun st c => updateIOMapping st 5 c.1 c.2.1 c.2.2) c7State).nodes
          5).bind LogicNode.inputMapping).getD (List.range 2))
      (List.range 2) ∧
    List.Perm
      (((alistGet (c7Calls.foldl
            (fun st c => updateIOMapping st 5 c.1 c.2.1 c.2.2) c7State).nodes
          5).bind LogicNode.outputMapping).getD (List.range 1))
      (List.range 1) :=
  remap_bijection c7State 5 2 1 c7IC c7Calls rfl rfl rfl rfl
    (Or.inl rfl) (Or.inl rfl) (by decide)

theorem alistSet_append {α : Type} :
    ∀ (m : List (Nat × α)) (k : Nat) (v : α), k ∉ m.map Prod.fst →
      alistSet m k v = m ++ [(k, v)]
  | [], _, _, _ => rfl
  | (a, b) :: t, k, v, h => by
    simp only [List.map_cons, List.mem_cons] at h
    push_neg at h
    simp only [alistSet]
    rw [if_neg (fun hak => h.1 hak.symm)]
    rw [alistSet_append t k v h.2]
    rfl

theorem rebuild_fold :
    ∀ (l : List LogicNode) (acc : List (Nat × LogicNode)),
      (l.map LogicNode.id).Nodup →
      (∀ n ∈ l, n.id ∉ acc.map Prod.fst) →
      l.foldl (fun m n => alistSet m n.id n) acc
        = acc ++ l.map (fun n => (n.id, n))
  | [], acc, _, _ => by simp
  | n :: t, acc, hnd, hacc => by
    rw [List.foldl_cons]
    rw [alistSet_append acc n.id n (hacc n (List.mem_cons_self _ _))]
    simp only [List.map_cons, List.nodup_cons] at hnd
    rw [rebuild_fold t (acc ++ [(n.id, n)]) hnd.2 ?h2]
    · simp
    case h2 =>
      intro m hm
      simp only [List.map_append, List.mem_append]
      push_neg
      refine ⟨hacc m (List.mem_cons_of_mem _ hm), ?_⟩
      simp only [List.map_cons, List.map_nil, List.mem_singleton]
      intro heq
      exact hnd.1 (heq ▸ List.mem_map_of_mem LogicNode.id hm)

/-- Serializing right after restoring a snapshot gives the snapshot back,
provided the snapshot's node ids are distinct (the node map is keyed by id,
so a duplicate id would collapse entries). -/
theorem serialize_deserialize (s : EngineState) (snap : Snapshot)
    (h : (snap.nodes.map LogicNode.id).Nodup) :
    serialize (deserialize s snap) = snap := by
  unfold serialize deserialize
  dsimp only
  rw [rebuild_fold snap.nodes [] h (by intro n _; simp)]
  simp only [List.nil_append, List.map_map]
  cases snap with
  | mk ns ws vp =>
    dsimp only
    congr 1
    have : ((fun p : Nat × LogicNode => p.2) ∘ fun n : LogicNode => (n.id, n))
        = id := by
      funext n
      rfl
    rw [this, List.map_id]

theorem foldl_deleteNodeStep_stacks :
    ∀ (ids : List Nat) (st : EngineState),
      (ids.foldl deleteNodeStep st).historyStack = st.historyStack ∧
      (ids.foldl deleteNodeStep st).redoStack = st.redoStack
  | [], _ => ⟨rfl, rfl⟩
  | i :: t, st => by
    rw [List.foldl_cons]
    exact foldl_deleteNodeStep_stacks t (deleteNodeStep st i)

/-- `saveState` is the identity when the top of the history stack already
equals the current serialized state (the duplicate-suppression branch). -/
theorem saveState_eq_self (s : EngineState) (c : Snapshot)
    (h : s.historyStack.getLast? = some c)
    (hd : snapEqb c (serialize s) = true) :
    saveState s = s := by
  unfold saveState
  by_cases hr : s.isRestoringHistory
  · rw [if_pos hr]
  · rw [if_neg hr]
    dsimp only
    rw [h]
    dsimp only
    rw [hd]
    rfl

theorem deleteSelected_stacks (s : EngineState) (h : saveState s = s) :
    (deleteSelected s).historyStack = s.historyStack ∧
    (deleteSelected s).redoStack = s.redoStack := by
  unfold deleteSelected
  split
  · exact ⟨rfl, rfl⟩
  · dsimp only
    rw [h]
    obtain ⟨h1, h2⟩ := foldl_deleteNodeStep_stacks s.selectedNodeIds s
    constructor
    · split
      · exact h1
      · exact h1
    · split
      · exact h2
      · exact h2

theorem undo_concat2 (d : EngineState) (l : List Snapshot) (p c : Snapshot)
    (hd : d.historyStack = l ++ [p, c]) :
    undo d = deserialize
      { d with historyStack := l ++ [p], redoStack := d.redoStack ++ [c] } p := by
  have hassoc : l ++ [p, c] = (l ++ [p]) ++ [c] := by simp
  unfold undo
  rw [hd, hassoc]
  rw [if_neg (by simp)]
  rw [List.getLast?_concat]
  dsimp only
  rw [List.dropLast_concat]
  rw [List.getLast?_concat]

theorem redo_concat (u : EngineState) (r : List Snapshot) (c : Snapshot)
    (hr : u.redoStack = r ++ [c]) :
    redo u = deserialize
      { u with redoStack := r, historyStack := u.historyStack ++ [c] } c := by
  unfold redo
  rw [hr]
  rw [List.getLast?_concat]
  dsimp only
  rw [List.dropLast_concat]

/-- C8 counterexample: on the demo circuit with the AND node selected,
`deleteSelected` followed by `undo` does not restore the pre-delete state,
and `redo` after that undo does not restore the post-delete state. -/
theorem history_idempotence_claim_false :
    ¬(serialize c8Undone = serialize c8Start) ∧
    ¬(serialize c8Redone = serialize c8Deleted) := by
  constructor
  · intro h
    exact absurd (congrArg (fun sn => sn.nodes.map LogicNode.id) h) (by decide)
  · intro h
    exact absurd (congrArg (fun sn => sn.nodes.map LogicNode.id) h) (by decide)

/-- C8 (amended): when the history top already equals the current serialized
state (as after any operation that checkpoints only before mutating, such as
`deleteSelected` right after the triggering interaction), `saveState`'s
duplicate suppression pushes nothing, so `undo` after the operation restores
`p`, the snapshot BELOW that pre-operation checkpoint `c`, and `redo` then
restores `c`, the pre-operation state — not the post-operation state. -/
theorem undo_restores_preceding_snapshot (s : EngineState) (l : List Snapshot)
    (p c : Snapshot)
    (hhs : s.historyStack = l ++ [p, c])
    (hdup : snapEqb c (serialize s) = true)
    (hnp : (p.nodes.map LogicNode.id).Nodup)
    (hnc : (c.nodes.map LogicNode.id).Nodup) :
    serialize (undo (deleteSelected s)) = p ∧
    serialize (redo (undo (deleteSelected s))) = c := by
  have hlast : s.historyStack.getLast? = some c := by
    rw [hhs]
    rw [show l ++ [p, c] = (l ++ [p]) ++ [c] by simp]
    exact List.getLast?_concat _
  have hsave : saveState s = s := saveState_eq_self s c hlast hdup
  have hstacks := deleteSelected_stacks s hsave
  have hu := undo_concat2 (deleteSelected s) l p c (hstacks.1.trans hhs)
  refine ⟨?_, ?_⟩
  · rw [hu]
    exact serialize_deserialize _ p hnp
  · have hur : (undo (deleteSelected s)).redoStack
        = (deleteSelected s).redoStack ++ [c] := by
      rw [hu]
      rfl
    rw [redo_concat _ _ c hur]
    exact serialize_deserialize _ c hnc

/-- Concrete run of the amended C8 theorem on the demo circuit: undo after
deleting the AND node restores the three-node snapshot `c8P`, and redo then
restores the four-node pre-delete snapshot `c8C`. -/
theorem undo_restores_preceding_snapshot_witness :
    serialize (undo (deleteSelected c8Start)) = c8P ∧
    serialize (redo (undo (deleteSelected c8Start))) = c8C :=
  undo_restores_preceding_snapshot c8Start c8HS c8P c8C rfl (by decide)
    (by decide) (by decide)
